import Mathlib

/-!
# HiGHS `HighsLp`: validators, comparators, objective, `clear` and user scaling

A shallow embedding of `src/lp_data/HighsLp.cpp`, and a model of the
user-scale engine that `check/TestUserScale.cpp` tests.

Conventions of the embedding.

* `HighsInt` is modelled by `Int`; a `std::vector` size converted to `HighsInt`
  is the length of the list (sizes are taken to be representable, and
  `num_col + 1` not to overflow).
* `double` is an arbitrary type `D` carrying the comparison `==` of the
  machine type (an arbitrary `BEq D`, with no law assumed unless a theorem
  says so, so that an interpretation in which a NaN differs from itself is
  covered), the constants `0` and `1` where `clear` needs them, and an
  addition and a multiplication where `objectiveValue` needs them.  The
  rounding of `double` is not modelled: statements about sums and products are
  made for an arbitrary addition in the order of evaluation, which covers the
  machine arithmetic, or in exact arithmetic where they say so; a small
  floating-point format shows the effect of rounding.
* `std::vector<T>` is `List T`; `operator==` on vectors is `vectorEq`.
* An element read `v[i]` is `vecAt v i : Option _`; it is `none` exactly when
  the index is out of range, which is undefined behaviour in the source.  A
  function that reads elements therefore returns an `Option`; a failed
  `assert` gives `none` as well.
* A `for` loop over the columns is a recursion on the number of iterations
  that remain.
* The diagnostic `printf` calls only write to the standard output and do not
  influence the returned value; the message parameter is kept, the output is
  not modelled.
-/

set_option linter.unusedVariables false

namespace HiGHS

/-- The integer type of the solver. -/
abbrev HighsInt := Int

/-- Modelled from the spec: the `MatrixFormat` enumeration is declared in a
header outside `src/`.  The spec names the tags "none", column-wise (CSC) and
row-wise (CSR); `kNone` is the value installed by `clear`. -/
inductive MatrixFormat where
  | kNone
  | kColwise
  | kRowwise
  deriving DecidableEq, Repr

/-- Modelled from the spec: the underlying integer of a `MatrixFormat`, as
obtained by the cast `(HighsInt)format`.  `kNone` is the zero of the
enumeration: `dimensionsOk` calls a format legal when the cast is positive and
does not expect a legal one for a model without columns. -/
def MatrixFormat.toHighsInt : MatrixFormat → HighsInt
  | .kNone => 0
  | .kColwise => 1
  | .kRowwise => 2

/-- Modelled from the spec: the objective sense (minimize or maximize),
declared in a header outside `src/`. -/
inductive ObjSense where
  | kMinimize
  | kMaximize
  deriving DecidableEq, Repr

/-- Modelled from the spec: the type of a variable (continuous or not),
declared in a header outside `src/`. -/
inductive HighsVarType where
  | kContinuous
  | kInteger
  deriving DecidableEq, Repr

/-- Modelled from the spec: the "off" value of the internal scale strategy,
a constant declared outside `src/`.  The strategy is tested for being
non-trivial by `if (scale_strategy)`, so "off" is zero. -/
def kSimplexScaleStrategyOff : HighsInt := 0

/-- Modelled from the spec: the matrix object
`{format, num_col, num_row, start, index, value}`. -/
structure HighsSparseMatrix (D : Type) where
  format : MatrixFormat
  num_col : HighsInt
  num_row : HighsInt
  start : List HighsInt
  index : List HighsInt
  value : List D

/-- Modelled from the spec: the internal scale record
`strategy, has_scaling, num_col, num_row, cost, col[], row[]`. -/
structure SimplexScale (D : Type) where
  strategy : HighsInt
  has_scaling : Bool
  num_col : HighsInt
  num_row : HighsInt
  cost : D
  col : List D
  row : List D

/-- The data members of `HighsLp` that `HighsLp.cpp` reads or writes.  The
class is declared in a header outside `src/`; the members and their types are
those the source file uses (counts as `HighsInt`, costs, bounds and values as
vectors of `double`, starts and indices as vectors of `HighsInt`). -/
structure HighsLp (D : Type) where
  num_col_ : HighsInt
  num_row_ : HighsInt
  a_start_ : List HighsInt
  a_index_ : List HighsInt
  a_value_ : List D
  col_cost_ : List D
  col_lower_ : List D
  col_upper_ : List D
  row_lower_ : List D
  row_upper_ : List D
  a_matrix_ : HighsSparseMatrix D
  sense_ : ObjSense
  offset_ : D
  format_ : MatrixFormat
  model_name_ : String
  col_names_ : List String
  row_names_ : List String
  integrality_ : List HighsVarType
  scale_ : SimplexScale D

/-- The comparison `operator==` of two `std::vector`s: equal sizes and
element-wise `==`, in order. -/
def vectorEq {α : Type} [BEq α] : List α → List α → Bool
  | [], [] => true
  | a :: as, b :: bs => (a == b) && vectorEq as bs
  | _, _ => false

/-- The element read `v[i]`: `none` when `i` is out of range. -/
def vecAt {α : Type} (v : List α) (i : HighsInt) : Option α :=
  if 0 ≤ i then v.get? i.toNat else none

/-- The size of a `std::vector` converted to `HighsInt`. -/
def vecSize {α : Type} (v : List α) : HighsInt := (v.length : Int)

/-- Two sequences have the same length and the same elements, in order,
under the comparison `==` of the element type. -/
def SameSeq {α : Type} [BEq α] (xs ys : List α) : Prop :=
  xs.length = ys.length ∧
    ∀ (i : Nat) (h₁ : i < xs.length) (h₂ : i < ys.length),
      (xs.get ⟨i, h₁⟩ == ys.get ⟨i, h₂⟩) = true

section Operations

variable {D : Type}

/-- `HighsLp::aMatrixOk` (lines 172-184). -/
def aMatrixOk [BEq D] (lp : HighsLp D) (_message : String) : Bool :=
  let ok := true
  let ok := (lp.a_matrix_.format == lp.format_) && ok
  let ok := (lp.a_matrix_.num_col == lp.num_col_) && ok
  let ok := (lp.a_matrix_.num_row == lp.num_row_) && ok
  let ok := vectorEq lp.a_matrix_.start lp.a_start_ && ok
  let ok := vectorEq lp.a_matrix_.index lp.a_index_ && ok
  let ok := vectorEq lp.a_matrix_.value lp.a_value_ && ok
  ok

/-- `HighsLp::dimensionsOk` (lines 83-170).  The result is `none` when an
element of `a_matrix_.start` is read out of range. -/
def dimensionsOk (lp : HighsLp D) (_message : String) : Option Bool := do
  let mut ok := true
  let num_col := lp.num_col_
  let num_row := lp.num_row_
  ok := decide (num_col ≥ 0) && ok
  ok := decide (num_row ≥ 0) && ok
  if !ok then
    return ok

  let col_cost_size := vecSize lp.col_cost_
  let col_lower_size := vecSize lp.col_lower_
  let col_upper_size := vecSize lp.col_upper_
  let matrix_start_size := vecSize lp.a_start_
  let legal_col_cost_size := decide (col_cost_size ≥ num_col)
  let legal_col_lower_size := decide (col_lower_size ≥ num_col)
  let legal_col_upper_size := decide (col_lower_size ≥ num_col)
  let legal_matrix_start_size := decide (matrix_start_size ≥ num_col + 1)
  ok := legal_col_cost_size && ok
  ok := legal_col_lower_size && ok
  ok := legal_col_upper_size && ok
  ok := legal_matrix_start_size && ok

  let row_lower_size := vecSize lp.row_lower_
  let row_upper_size := vecSize lp.row_upper_
  let legal_row_lower_size := decide (row_lower_size ≥ num_row)
  let legal_row_upper_size := decide (row_lower_size ≥ num_row)
  ok := legal_row_lower_size && ok
  ok := legal_row_upper_size && ok

  let legal_a_matrix_num_col := decide (lp.a_matrix_.num_col = num_col)
  let legal_a_matrix_num_row := decide (lp.a_matrix_.num_row = num_row)
  ok := legal_a_matrix_num_col && ok
  ok := legal_a_matrix_num_row && ok

  let a_matrix_start_size := vecSize lp.a_matrix_.start
  let mut legal_a_matrix_start_size := false
  if num_col > 0 then
    legal_a_matrix_start_size := decide (a_matrix_start_size ≥ num_col + 1)
    ok := legal_a_matrix_start_size && ok
    let a_matrix_format := lp.a_matrix_.format.toHighsInt
    let legal_a_matrix_format := decide (a_matrix_format > 0)
    ok := legal_a_matrix_format && ok
  if a_matrix_start_size > 0 then
    let first_start ← vecAt lp.a_matrix_.start 0
    ok := decide (first_start = 0) && ok
  let mut num_nz : HighsInt := 0
  if legal_matrix_start_size then
    num_nz ← vecAt lp.a_matrix_.start num_col
  let legal_num_nz := decide (num_nz ≥ 0)
  if !legal_num_nz then
    ok := false
  else
    let a_matrix_index_size := vecSize lp.a_matrix_.index
    let a_matrix_value_size := vecSize lp.a_matrix_.value
    let legal_a_matrix_index_size := decide (a_matrix_index_size ≥ num_nz)
    let legal_a_matrix_value_size := decide (a_matrix_value_size ≥ num_nz)
    ok := legal_a_matrix_index_size && ok
    ok := legal_a_matrix_value_size && ok

  let scale_strategy := lp.scale_.strategy
  let legal_scale_strategy := decide (scale_strategy ≥ 0)
  ok := legal_scale_strategy && ok
  if scale_strategy ≠ 0 then
    let legal_scale_num_col := decide (lp.scale_.num_col = num_col)
    ok := legal_scale_num_col && ok
    let legal_scale_num_row := decide (lp.scale_.num_row = num_row)
    ok := legal_scale_num_row && ok
    let scale_row_size := vecSize lp.scale_.row
    let scale_col_size := vecSize lp.scale_.col
    let legal_scale_row_size := decide (scale_row_size ≥ num_row)
    let legal_scale_col_size := decide (scale_col_size ≥ num_col)
    ok := legal_scale_row_size && ok
    ok := legal_scale_col_size && ok
  return ok

/-- `HighsLp::dimensionsAndaMatrixOk` (lines 79-81): `&&` evaluates
`aMatrixOk` only when `dimensionsOk` returned true. -/
def dimensionsAndaMatrixOk [BEq D] (lp : HighsLp D) (message : String) :
    Option Bool := do
  let d ← dimensionsOk lp message
  if d then return aMatrixOk lp message else return false

/-- `HighsLp::equalButForNames` (lines 37-69). -/
def equalButForNames [BEq D] (this lp : HighsLp D) : Bool :=
  let equal := true
  let equal := (this.num_col_ == lp.num_col_) && equal
  let equal := (this.num_row_ == lp.num_row_) && equal
  let equal := (this.sense_ == lp.sense_) && equal
  let equal := (this.offset_ == lp.offset_) && equal
  let equal := (this.model_name_ == lp.model_name_) && equal
  let equal := vectorEq this.col_cost_ lp.col_cost_ && equal
  let equal := vectorEq this.col_upper_ lp.col_upper_ && equal
  let equal := vectorEq this.col_lower_ lp.col_lower_ && equal
  let equal := vectorEq this.row_upper_ lp.row_upper_ && equal
  let equal := vectorEq this.row_lower_ lp.row_lower_ && equal
  let equal := vectorEq this.a_start_ lp.a_start_ && equal
  let equal := vectorEq this.a_index_ lp.a_index_ && equal
  let equal := vectorEq this.a_value_ lp.a_value_ && equal
  let equal := (this.format_ == lp.format_) && equal

  let equal := (this.a_matrix_.format == lp.a_matrix_.format) && equal
  let equal := (this.a_matrix_.num_col == lp.a_matrix_.num_col) && equal
  let equal := (this.a_matrix_.num_row == lp.a_matrix_.num_row) && equal
  let equal := vectorEq this.a_matrix_.start lp.a_matrix_.start && equal
  let equal := vectorEq this.a_matrix_.index lp.a_matrix_.index && equal
  let equal := vectorEq this.a_matrix_.value lp.a_matrix_.value && equal

  let equal := (this.scale_.strategy == lp.scale_.strategy) && equal
  let equal := (this.scale_.has_scaling == lp.scale_.has_scaling) && equal
  let equal := (this.scale_.num_col == lp.scale_.num_col) && equal
  let equal := (this.scale_.num_row == lp.scale_.num_row) && equal
  let equal := (this.scale_.cost == lp.scale_.cost) && equal
  let equal := vectorEq this.scale_.col lp.scale_.col && equal
  let equal := vectorEq this.scale_.row lp.scale_.row && equal
  equal

/-- `HighsLp::operator==` (lines 30-35). -/
def operatorEq [BEq D] (this lp : HighsLp D) : Bool :=
  let equal := equalButForNames this lp
  let equal := vectorEq this.row_names_ lp.row_names_ && equal
  let equal := vectorEq this.col_names_ lp.col_names_ && equal
  equal

/-- `HighsLp::equalScale` (lines 186-194). -/
def equalScale [BEq D] (lp : HighsLp D) (_message : String)
    (scale : SimplexScale D) : Bool :=
  let equal := true
  let equal := vectorEq lp.scale_.col scale.col && equal
  let equal := vectorEq lp.scale_.row scale.row && equal
  equal

/-- `HighsLp::clear` (lines 196-231).  Only the members assigned in the source
change; in particular `a_matrix_.format`, `a_matrix_.num_col` and
`a_matrix_.num_row` are left as they were. -/
def clear [Zero D] [One D] (lp : HighsLp D) : HighsLp D :=
  { lp with
    num_col_ := 0
    num_row_ := 0
    a_start_ := []
    a_index_ := []
    a_value_ := []
    col_cost_ := []
    col_lower_ := []
    col_upper_ := []
    row_lower_ := []
    row_upper_ := []
    a_matrix_ := { lp.a_matrix_ with start := [], index := [], value := [] }
    sense_ := ObjSense.kMinimize
    offset_ := 0
    format_ := MatrixFormat.kNone
    model_name_ := ""
    col_names_ := []
    row_names_ := []
    integrality_ := []
    scale_ :=
      { strategy := kSimplexScaleStrategyOff
        has_scaling := false
        num_col := 0
        num_row := 0
        cost := 1
        col := []
        row := [] } }

/-- The loop of `HighsLp::isMip` (lines 24-25), at column `iCol` with
`remaining = num_col_ - iCol` iterations left: it returns true at the first
entry that is not continuous and leaves the loop, to `return false`, when no
iteration is left.  The result is `none` when `integrality_[iCol]` is read
out of range. -/
def isMipLoop (integrality : List HighsVarType) : Nat → Nat → Option Bool
  | _, 0 => some false
  | iCol, remaining + 1 => do
    let var_type ← vecAt integrality (iCol : Int)
    if var_type ≠ HighsVarType.kContinuous then
      return true
    isMipLoop integrality (iCol + 1) remaining

/-- `HighsLp::isMip` (lines 20-28).  A failed `assert` gives `none`. -/
def isMip (lp : HighsLp D) : Option Bool := do
  let integrality_size := vecSize lp.integrality_
  if integrality_size ≠ 0 then
    if ¬ (integrality_size = lp.num_col_) then
      none
    else
      isMipLoop lp.integrality_ 0 lp.num_col_.toNat
  else
    return false

/-- The loop of `HighsLp::objectiveValue` (lines 74-75), at column `iCol` with
`remaining = num_col_ - iCol` iterations left and the value accumulated so
far.  The result is `none` when `col_cost_[iCol]` or `solution[iCol]` is read
out of range. -/
def objectiveValueLoop [Add D] [Mul D] (col_cost solution : List D) :
    Nat → Nat → D → Option D
  | _, 0, objective_function_value => some objective_function_value
  | iCol, remaining + 1, objective_function_value => do
    let cost ← vecAt col_cost (iCol : Int)
    let value ← vecAt solution (iCol : Int)
    objectiveValueLoop col_cost solution (iCol + 1) remaining
      (objective_function_value + cost * value)

/-- `HighsLp::objectiveValue` (lines 71-77).  A failed `assert` gives `none`;
with the assertion compiled out the loop would read `solution` out of range
on the same inputs. -/
def objectiveValue [Add D] [Mul D] (lp : HighsLp D) (solution : List D) :
    Option D :=
  if ¬ (vecSize solution ≥ lp.num_col_) then
    none
  else
    objectiveValueLoop lp.col_cost_ solution 0 lp.num_col_.toNat lp.offset_

/-- The empty model: zero counts, every array empty, a matrix object of zero
dimensions, sense minimize, offset `0`, format `kNone` and the default
internal scale.  It is the state `clear` assigns, with the three members of
the matrix object that `clear` leaves alone at zero and `kNone`. -/
def emptyLp [Zero D] [One D] : HighsLp D :=
  { num_col_ := 0, num_row_ := 0,
    a_start_ := [], a_index_ := [], a_value_ := [],
    col_cost_ := [], col_lower_ := [], col_upper_ := [],
    row_lower_ := [], row_upper_ := [],
    a_matrix_ :=
      { format := MatrixFormat.kNone, num_col := 0, num_row := 0,
        start := [], index := [], value := [] },
    sense_ := ObjSense.kMinimize, offset_ := 0, format_ := MatrixFormat.kNone,
    model_name_ := "", col_names_ := [], row_names_ := [], integrality_ := [],
    scale_ :=
      { strategy := kSimplexScaleStrategyOff, has_scaling := false,
        num_col := 0, num_row := 0, cost := 1, col := [], row := [] } }

end Operations

/-! ## An arithmetic with rounding

A small floating-point format, to evaluate the operations in an arithmetic
whose addition is not associative, as the addition of `double` is not. -/

/-- A non-negative number of a floating-point format with a significand of
three bits: the numbers `m * 2^e` with `m < 8`. -/
structure TinyFloat where
  val : Nat
  deriving DecidableEq, Repr

/-- Truncation of a natural number to its three leading bits: the number is
halved until it is below `8` and doubled back as many times.  The first
argument bounds the number of halvings. -/
def TinyFloat.truncate : Nat → Nat → Nat
  | 0, n => n
  | steps + 1, n => if n < 8 then n else 2 * TinyFloat.truncate steps (n / 2)

/-- Rounding toward zero to three significant bits. -/
def TinyFloat.round (n : Nat) : TinyFloat :=
  ⟨TinyFloat.truncate n n⟩

instance : Add TinyFloat := ⟨fun a b => TinyFloat.round (a.val + b.val)⟩

instance : Mul TinyFloat := ⟨fun a b => TinyFloat.round (a.val * b.val)⟩

instance : Zero TinyFloat := ⟨⟨0⟩⟩

instance : One TinyFloat := ⟨⟨1⟩⟩

/-! ## The user-scale engine

The engine is not part of `src/`; only a test of it is.  It is modelled from
sections 4.3 and 7 of the specification: the stored values are in exact
arithmetic, and a requested exponent whose factor is not finitely
representable is an error that mutates nothing. -/

/-- Modelled from the spec: a stored cost or bound of the user-scale engine in
exact arithmetic, a rational number or one of the two infinity sentinels. -/
inductive XDouble where
  | negInf
  | fin (q : ℚ)
  | posInf
  deriving DecidableEq

/-- Modelled from the spec: the value is at an infinity sentinel. -/
def XDouble.isInfinite : XDouble → Bool
  | .negInf => true
  | .fin _ => false
  | .posInf => true

/-- Modelled from the spec: the product `value * 2^k` of a stored value and a
power of two; the product of an infinity and a power of two is that
infinity. -/
def XDouble.timesPow2 : XDouble → Int → XDouble
  | .negInf, _ => .negInf
  | .fin q, k => .fin (q * (2 : ℚ) ^ k)
  | .posInf, _ => .posInf

instance : Zero XDouble := ⟨XDouble.fin 0⟩

instance : One XDouble := ⟨XDouble.fin 1⟩

/-- Modelled from the spec: a model entity together with its user-scale
state, the bound-scale and the cost-scale exponent currently applied to the
stored model. -/
structure UserScaledLp where
  lp : HighsLp XDouble
  user_bound_scale : Int
  user_cost_scale : Int

/-- Modelled from the spec: a model as constructed, empty and with both
exponents at their default `0`. -/
def initialUserScaledLp : UserScaledLp :=
  { lp := emptyLp, user_bound_scale := 0, user_cost_scale := 0 }

/-- Modelled from the spec: the scaling of one stored bound by `2^k`: a bound
that is not at the infinity sentinel is replaced by `value * 2^k`, a bound at
the sentinel is left unchanged. -/
def scaleBound (k : Int) (value : XDouble) : XDouble :=
  if value.isInfinite then value else value.timesPow2 k

/-- Modelled from the spec: what a set operation reports to its caller,
success or a configuration error. -/
inductive HighsStatus where
  | kOk
  | kError
  deriving DecidableEq, Repr

/-- Modelled from the spec: the factor `2^k` of a requested exponent is
finitely representable.  The stored quantities are of the machine type
`double`, whose powers of two range from `2^(-1074)` to `2^1023`; an exponent
outside this range overflows the floating-point exponent range. -/
def factorRepresentable (k : Int) : Bool :=
  decide (-1074 ≤ k) && decide (k ≤ 1023)

/-- Modelled from the spec: "set bound-scale exponent `b`".  A requested
exponent whose factor is not finitely representable is a configuration error,
reported to the caller, and nothing is mutated.  Otherwise the engine, which
remembers the exponent applied before, multiplies every column and row bound
that is not at the infinity sentinel by `2^(b - previous_b)` and records
`b`. -/
def setUserBoundScale (s : UserScaledLp) (b : Int) : HighsStatus × UserScaledLp :=
  if factorRepresentable b then
    let dl_user_bound_scale := b - s.user_bound_scale
    (HighsStatus.kOk,
      { s with
        lp :=
          { s.lp with
            col_lower_ := s.lp.col_lower_.map (scaleBound dl_user_bound_scale)
            col_upper_ := s.lp.col_upper_.map (scaleBound dl_user_bound_scale)
            row_lower_ := s.lp.row_lower_.map (scaleBound dl_user_bound_scale)
            row_upper_ := s.lp.row_upper_.map (scaleBound dl_user_bound_scale) }
        user_bound_scale := b })
  else
    (HighsStatus.kError, s)

/-- Modelled from the spec: "set cost-scale exponent `c`", analogous to the
bound scale: the same error for an exponent whose factor is not finitely
representable, and otherwise every column cost multiplied by
`2^(c - previous_c)`, without an exception for infinities. -/
def setUserCostScale (s : UserScaledLp) (c : Int) : HighsStatus × UserScaledLp :=
  if factorRepresentable c then
    let dl_user_cost_scale := c - s.user_cost_scale
    (HighsStatus.kOk,
      { s with
        lp :=
          { s.lp with
            col_cost_ :=
              s.lp.col_cost_.map (fun cost => cost.timesPow2 dl_user_cost_scale) }
        user_cost_scale := c })
  else
    (HighsStatus.kError, s)

/-- Modelled from the spec: "changing one column's cost".  The value written
is scaled at write time by the cost factor currently active.  An index out of
range writes nothing. -/
def changeColCost (s : UserScaledLp) (iCol : Nat) (cost : XDouble) : UserScaledLp :=
  { s with
    lp :=
      { s.lp with
        col_cost_ := s.lp.col_cost_.set iCol (cost.timesPow2 s.user_cost_scale) } }

/-- Modelled from the spec: "adding a new column", with zero cost and the
given bounds, as `addVar` of the test does.  The values written are scaled at
write time by the factors currently active.  The specification does not
describe what the operation does to the matrix; the matrix members are left
as they are. -/
def addVar (s : UserScaledLp) (lower upper : XDouble) : UserScaledLp :=
  { s with
    lp :=
      { s.lp with
        num_col_ := s.lp.num_col_ + 1
        col_cost_ := s.lp.col_cost_ ++ [(0 : XDouble).timesPow2 s.user_cost_scale]
        col_lower_ := s.lp.col_lower_ ++ [scaleBound s.user_bound_scale lower]
        col_upper_ := s.lp.col_upper_ ++ [scaleBound s.user_bound_scale upper] } }

/-- Modelled from the spec: the relation between the bounds stored before and
after the bound scale `b` is applied.  The arrays have the same length; every
bound other than `excluded` (minus infinity for a lower bound, plus infinity
for an upper bound) is now the former bound times `2^b`; every bound that was
at an infinity sentinel is still that sentinel. -/
def BoundsScaled (b : Int) (excluded : XDouble) (before after : List XDouble) : Prop :=
  before.length = after.length ∧
  ∀ (i : Nat) (v : XDouble), before.get? i = some v →
    (v ≠ excluded → after.get? i = some (v.timesPow2 b)) ∧
    (v.isInfinite = true → after.get? i = some v)

/-- Modelled from the spec: every cost stored after the cost scale `c` is
applied is the former cost times `2^c`. -/
def CostsScaled (c : Int) (before after : List XDouble) : Prop :=
  before.length = after.length ∧
  ∀ (i : Nat) (v : XDouble), before.get? i = some v →
    after.get? i = some (v.timesPow2 c)

/-- Modelled from the spec: the stored model of `s` is the model `unscaled`,
in the units of the user, scaled by the exponents that `s` records: costs by
the cost-scale exponent, column and row bounds by the bound-scale exponent. -/
def StoredScaled (unscaled : HighsLp XDouble) (s : UserScaledLp) : Prop :=
  CostsScaled s.user_cost_scale unscaled.col_cost_ s.lp.col_cost_ ∧
  BoundsScaled s.user_bound_scale XDouble.negInf unscaled.col_lower_ s.lp.col_lower_ ∧
  BoundsScaled s.user_bound_scale XDouble.posInf unscaled.col_upper_ s.lp.col_upper_ ∧
  BoundsScaled s.user_bound_scale XDouble.negInf unscaled.row_lower_ s.lp.row_lower_ ∧
  BoundsScaled s.user_bound_scale XDouble.posInf unscaled.row_upper_ s.lp.row_upper_

/-! ## Properties named by the specification -/

/-- What a true answer of `dimensionsOk` amounts to: the checks the function
makes, in the order of the source. -/
def DimensionsChecked {D : Type} (lp : HighsLp D) : Prop :=
  0 ≤ lp.num_col_ ∧ 0 ≤ lp.num_row_ ∧
  lp.num_col_ ≤ vecSize lp.col_cost_ ∧ lp.num_col_ ≤ vecSize lp.col_lower_ ∧
  lp.num_col_ + 1 ≤ vecSize lp.a_start_ ∧
  lp.num_row_ ≤ vecSize lp.row_lower_ ∧
  lp.a_matrix_.num_col = lp.num_col_ ∧ lp.a_matrix_.num_row = lp.num_row_ ∧
  (0 < lp.num_col_ →
    lp.num_col_ + 1 ≤ vecSize lp.a_matrix_.start ∧
      0 < lp.a_matrix_.format.toHighsInt) ∧
  (0 < vecSize lp.a_matrix_.start → vecAt lp.a_matrix_.start 0 = some 0) ∧
  (∃ num_nz, vecAt lp.a_matrix_.start lp.num_col_ = some num_nz ∧ 0 ≤ num_nz ∧
    num_nz ≤ vecSize lp.a_matrix_.index ∧ num_nz ≤ vecSize lp.a_matrix_.value) ∧
  0 ≤ lp.scale_.strategy ∧
  (lp.scale_.strategy ≠ 0 →
    lp.scale_.num_col = lp.num_col_ ∧ lp.scale_.num_row = lp.num_row_ ∧
    lp.num_row_ ≤ vecSize lp.scale_.row ∧ lp.num_col_ ≤ vecSize lp.scale_.col)

/-- Invariant 2 of the data model: the matrix object mirrors the legacy
triple and the model's format and counts. -/
def MatrixMirrors {D : Type} [BEq D] (lp : HighsLp D) : Prop :=
  lp.a_matrix_.format = lp.format_ ∧
  lp.a_matrix_.num_col = lp.num_col_ ∧
  lp.a_matrix_.num_row = lp.num_row_ ∧
  lp.a_matrix_.start = lp.a_start_ ∧
  lp.a_matrix_.index = lp.a_index_ ∧
  SameSeq lp.a_matrix_.value lp.a_value_

/-- The column starts `start[0..num_col]` are non-decreasing:
`start[j] ≤ start[j+1]` for every `0 ≤ j < num_col`. -/
def StartsNonDecreasing (start : List HighsInt) (num_col : HighsInt) : Prop :=
  ∀ (j : Nat), (j : Int) < num_col → ∀ a b : HighsInt,
    start.get? j = some a → start.get? (j + 1) = some b → a ≤ b

/-- Invariants 1 to 4 of the data model, as the specification words them:
non-negative counts; every cost and bound array at least as long as its
declared count; the matrix object mirroring the legacy triple; `a_start_` of
length at least `num_col_ + 1`, starting at zero, non-decreasing, with a
non-negative declared count that the index and value arrays cover; and, when
the scale strategy is not off, the scale dimensions and array sizes equal to
the declared counts. -/
def SpecInvariants {D : Type} [BEq D] (lp : HighsLp D) : Prop :=
  (0 ≤ lp.num_col_ ∧ 0 ≤ lp.num_row_) ∧
  (lp.num_col_ ≤ vecSize lp.col_cost_ ∧ lp.num_col_ ≤ vecSize lp.col_lower_ ∧
    lp.num_col_ ≤ vecSize lp.col_upper_ ∧
    lp.num_row_ ≤ vecSize lp.row_lower_ ∧ lp.num_row_ ≤ vecSize lp.row_upper_) ∧
  MatrixMirrors lp ∧
  (lp.num_col_ + 1 ≤ vecSize lp.a_start_ ∧
    vecAt lp.a_start_ 0 = some 0 ∧
    StartsNonDecreasing lp.a_start_ lp.num_col_ ∧
    ∃ num_nz, vecAt lp.a_start_ lp.num_col_ = some num_nz ∧ 0 ≤ num_nz ∧
      num_nz ≤ vecSize lp.a_index_ ∧ num_nz ≤ vecSize lp.a_value_) ∧
  (lp.scale_.strategy ≠ kSimplexScaleStrategyOff →
    lp.scale_.num_col = lp.num_col_ ∧ lp.scale_.num_row = lp.num_row_ ∧
    vecSize lp.scale_.col = lp.num_col_ ∧ vecSize lp.scale_.row = lp.num_row_)

/-- The members on which the specification says `equalButForNames` compares
two models: the counts, sense, offset, the cost and bound arrays, both matrix
representations, the format and the internal scale state.  Integers, tags and
integer arrays agree when they are equal; `double` members agree under `==`. -/
def AgreeStructural {D : Type} [BEq D] (A B : HighsLp D) : Prop :=
  A.num_col_ = B.num_col_ ∧ A.num_row_ = B.num_row_ ∧
  A.sense_ = B.sense_ ∧ (A.offset_ == B.offset_) = true ∧
  SameSeq A.col_cost_ B.col_cost_ ∧
  SameSeq A.col_upper_ B.col_upper_ ∧ SameSeq A.col_lower_ B.col_lower_ ∧
  SameSeq A.row_upper_ B.row_upper_ ∧ SameSeq A.row_lower_ B.row_lower_ ∧
  A.a_start_ = B.a_start_ ∧ A.a_index_ = B.a_index_ ∧
  SameSeq A.a_value_ B.a_value_ ∧
  A.format_ = B.format_ ∧
  A.a_matrix_.format = B.a_matrix_.format ∧
  A.a_matrix_.num_col = B.a_matrix_.num_col ∧
  A.a_matrix_.num_row = B.a_matrix_.num_row ∧
  A.a_matrix_.start = B.a_matrix_.start ∧
  A.a_matrix_.index = B.a_matrix_.index ∧
  SameSeq A.a_matrix_.value B.a_matrix_.value ∧
  A.scale_.strategy = B.scale_.strategy ∧
  A.scale_.has_scaling = B.scale_.has_scaling ∧
  A.scale_.num_col = B.scale_.num_col ∧
  A.scale_.num_row = B.scale_.num_row ∧
  (A.scale_.cost == B.scale_.cost) = true ∧
  SameSeq A.scale_.col B.scale_.col ∧
  SameSeq A.scale_.row B.scale_.row

/-! ## Example models -/

/-- A matrix object of three columns and two rows, holding four entries. -/
def exampleMatrix : HighsSparseMatrix Int :=
  { format := .kColwise, num_col := 3, num_row := 2,
    start := [0, 2, 2, 4], index := [0, 1, 0, 1], value := [1, 2, 3, 4] }

/-- A model of three columns and two rows whose two matrix representations
agree. -/
def exampleLp : HighsLp Int :=
  { num_col_ := 3, num_row_ := 2,
    a_start_ := [0, 2, 2, 4], a_index_ := [0, 1, 0, 1], a_value_ := [1, 2, 3, 4],
    col_cost_ := [1, 1, 1], col_lower_ := [0, 0, 0], col_upper_ := [5, 5, 5],
    row_lower_ := [0, 0], row_upper_ := [9, 9],
    a_matrix_ := exampleMatrix,
    sense_ := .kMinimize, offset_ := 0, format_ := .kColwise,
    model_name_ := "example", col_names_ := ["x", "y", "z"],
    row_names_ := ["r0", "r1"], integrality_ := [],
    scale_ :=
      { strategy := 0, has_scaling := false, num_col := 0, num_row := 0,
        cost := 1, col := [], row := [] } }

/-- A model of one column and one row whose upper-bound arrays `col_upper_`
and `row_upper_` are empty, every other array having its declared length. -/
def shortUpperLp : HighsLp Int :=
  { num_col_ := 1, num_row_ := 1,
    a_start_ := [0, 1], a_index_ := [0], a_value_ := [1],
    col_cost_ := [1], col_lower_ := [0], col_upper_ := [],
    row_lower_ := [0], row_upper_ := [],
    a_matrix_ :=
      { format := .kColwise, num_col := 1, num_row := 1,
        start := [0, 1], index := [0], value := [1] },
    sense_ := .kMinimize, offset_ := 0, format_ := .kColwise,
    model_name_ := "", col_names_ := [], row_names_ := [], integrality_ := [],
    scale_ :=
      { strategy := 0, has_scaling := false, num_col := 0, num_row := 0,
        cost := 1, col := [], row := [] } }

/-- A model of one column and one row, holding one entry, in which the format
of the model and of the matrix object is `kNone`. -/
def noFormatLp : HighsLp Int :=
  { num_col_ := 1, num_row_ := 1,
    a_start_ := [0, 1], a_index_ := [0], a_value_ := [1],
    col_cost_ := [1], col_lower_ := [0], col_upper_ := [5],
    row_lower_ := [0], row_upper_ := [9],
    a_matrix_ :=
      { format := .kNone, num_col := 1, num_row := 1,
        start := [0, 1], index := [0], value := [1] },
    sense_ := .kMinimize, offset_ := 0, format_ := .kNone,
    model_name_ := "", col_names_ := [], row_names_ := [], integrality_ := [],
    scale_ :=
      { strategy := 0, has_scaling := false, num_col := 0, num_row := 0,
        cost := 1, col := [], row := [] } }

/-- A model without columns and rows whose legacy `a_start_` is `[0]` while
the `start` of the matrix object is empty. -/
def unsyncedStartLp : HighsLp Int :=
  { num_col_ := 0, num_row_ := 0,
    a_start_ := [0], a_index_ := [], a_value_ := [],
    col_cost_ := [], col_lower_ := [], col_upper_ := [],
    row_lower_ := [], row_upper_ := [],
    a_matrix_ :=
      { format := .kNone, num_col := 0, num_row := 0,
        start := [], index := [], value := [] },
    sense_ := .kMinimize, offset_ := 0, format_ := .kNone,
    model_name_ := "", col_names_ := [], row_names_ := [], integrality_ := [],
    scale_ :=
      { strategy := 0, has_scaling := false, num_col := 0, num_row := 0,
        cost := 1, col := [], row := [] } }

/-- The example model under another model name. -/
def renamedModelLp : HighsLp Int :=
  { exampleLp with model_name_ := "other" }

/-- The example model under other column names. -/
def renamedColumnsLp : HighsLp Int :=
  { exampleLp with col_names_ := ["u", "v", "w"] }

/-- A scale record with per-column and per-row factors. -/
def exampleScale : SimplexScale Int :=
  { strategy := 2, has_scaling := true, num_col := 3, num_row := 2,
    cost := 4, col := [1, 2, 1], row := [2, 1] }

/-- The example model carrying the factors of `exampleScale`, the other scale
members being left at their defaults. -/
def scaledLp : HighsLp Int :=
  { exampleLp with
    scale_ := { exampleLp.scale_ with col := [1, 2, 1], row := [2, 1] } }

/-- The example model with its second column declared integer. -/
def mixedIntegerLp : HighsLp Int :=
  { exampleLp with
    integrality_ :=
      [HighsVarType.kContinuous, HighsVarType.kInteger, HighsVarType.kContinuous] }

/-- The example model with an active internal scale whose dimensions are the
declared counts and whose factor arrays are longer than the counts: four
column factors for three columns, three row factors for two rows. -/
def wideScaleLp : HighsLp Int :=
  { exampleLp with
    scale_ :=
      { strategy := 2, has_scaling := true, num_col := 3, num_row := 2,
        cost := 1, col := [1, 1, 1, 1], row := [1, 1, 1] } }

/-- A model over the rationals of one column with cost `3` and objective
offset `1`. -/
def offsetLp : HighsLp ℚ :=
  { (emptyLp : HighsLp ℚ) with
    num_col_ := 1, col_cost_ := [3], col_lower_ := [0], col_upper_ := [9],
    offset_ := 1 }

/-- A stored model of the user-scale engine: two columns, one row, with
infinite bounds among the finite ones. -/
def boundedLp : HighsLp XDouble :=
  { (emptyLp : HighsLp XDouble) with
    num_col_ := 2, num_row_ := 1,
    col_cost_ := [XDouble.fin 3, XDouble.fin (-1)],
    col_lower_ := [XDouble.fin 1, XDouble.negInf],
    col_upper_ := [XDouble.posInf, XDouble.fin 4],
    row_lower_ := [XDouble.negInf], row_upper_ := [XDouble.fin 10] }

/-- The model of zero dimensions in which the legacy `a_start_` and the
`start` of the matrix object both hold the single entry `0`; every other
member is as in the empty model. -/
def zeroDimensionLp : HighsLp Int :=
  { (emptyLp : HighsLp Int) with
    a_start_ := [0]
    a_matrix_ := { (emptyLp : HighsLp Int).a_matrix_ with start := [0] } }

/-- A model over the three-bit floating-point format: two columns of cost
`1` and objective offset `8`. -/
def tinyLp : HighsLp TinyFloat :=
  { (emptyLp : HighsLp TinyFloat) with
    num_col_ := 2, col_cost_ := [⟨1⟩, ⟨1⟩], col_lower_ := [⟨0⟩, ⟨0⟩],
    col_upper_ := [⟨4⟩, ⟨4⟩], offset_ := ⟨8⟩ }

/-- The model of the validator example of the spec: `num_col = 3`, legacy
`a_start = [0, 2, 2, 5]`, matrix-object `start = [0, 2, 2, 4]`. -/
def mismatchLp : HighsLp Int :=
  { exampleLp with a_start_ := [0, 2, 2, 5] }

end HiGHS

/-! ## Lemmas on vectors -/

namespace HiGHS

theorem vectorEq_iff_sameSeq {α : Type} [BEq α] (xs ys : List α) :
    vectorEq xs ys = true ↔ SameSeq xs ys := by
  induction xs generalizing ys with
  | nil =>
    cases ys with
    | nil => simp [vectorEq, SameSeq]
    | cons b bs => simp [vectorEq, SameSeq]
  | cons a as ih =>
    cases ys with
    | nil => simp [vectorEq, SameSeq]
    | cons b bs =>
      simp only [vectorEq, Bool.and_eq_true, ih, SameSeq, List.length_cons,
        Nat.add_right_cancel_iff]
      constructor
      · rintro ⟨hab, hlen, hrest⟩
        refine ⟨hlen, ?_⟩
        intro i h₁ h₂
        cases i with
        | zero => simpa using hab
        | succ k =>
          simpa using hrest k (Nat.lt_of_succ_lt_succ h₁) (Nat.lt_of_succ_lt_succ h₂)
      · rintro ⟨hlen, hall⟩
        refine ⟨?_, hlen, ?_⟩
        · simpa using hall 0 (Nat.succ_pos _) (Nat.succ_pos _)
        · intro i h₁ h₂
          simpa using hall (i + 1) (Nat.succ_lt_succ h₁) (Nat.succ_lt_succ h₂)

theorem vectorEq_iff_eq {α : Type} [BEq α] [LawfulBEq α] (xs ys : List α) :
    vectorEq xs ys = true ↔ xs = ys := by
  induction xs generalizing ys with
  | nil => cases ys <;> simp [vectorEq]
  | cons a as ih => cases ys <;> simp [vectorEq, ih]

theorem SameSeq.vecSize_eq {α : Type} [BEq α] {xs ys : List α}
    (h : SameSeq xs ys) : vecSize xs = vecSize ys := by
  unfold vecSize
  rw [h.1]

theorem vecAt_eq_some_iff {α : Type} (v : List α) (i : HighsInt) (a : α) :
    vecAt v i = some a ↔ 0 ≤ i ∧ v.get? i.toNat = some a := by
  unfold vecAt
  split <;> simp [*]

theorem vecAt_eq_none_iff {α : Type} (v : List α) (i : HighsInt) :
    vecAt v i = none ↔ i < 0 ∨ vecSize v ≤ i := by
  unfold vecAt vecSize
  have hi : (i < 0 ∨ ((v.length : Int) ≤ i)) ↔ (¬ 0 ≤ i ∨ v.length ≤ i.toNat) := by
    constructor
    · rintro (h | h)
      · exact Or.inl (not_le.mpr h)
      · by_cases h0 : 0 ≤ i
        · exact Or.inr (by
            have := Int.toNat_of_nonneg h0
            omega)
        · exact Or.inl h0
    · rintro (h | h)
      · exact Or.inl (not_le.mp h)
      · by_cases h0 : 0 ≤ i
        · exact Or.inr (by
            have := Int.toNat_of_nonneg h0
            omega)
        · exact Or.inl (not_le.mp h0)
  rw [hi]
  split
  · rename_i h0
    simp [List.get?_eq_none, h0]
  · rename_i h0
    simp [h0]

end HiGHS

/-! ## The validators -/

namespace HiGHS

theorem aMatrixOk_eq_true_iff {D : Type} [BEq D] (lp : HighsLp D) (m : String) :
    aMatrixOk lp m = true ↔ MatrixMirrors lp := by
  simp only [aMatrixOk, MatrixMirrors, Bool.and_true, Bool.and_eq_true, beq_iff_eq,
    vectorEq_iff_eq, vectorEq_iff_sameSeq]
  tauto

theorem dimensionsOk_eq_some_true_iff {D : Type} (lp : HighsLp D) (m : String) :
    dimensionsOk lp m = some true ↔ DimensionsChecked lp := by
  unfold DimensionsChecked
  by_cases hc : 0 ≤ lp.num_col_
  · by_cases hr : 0 ≤ lp.num_row_
    · by_cases hl : lp.num_col_ + 1 ≤ vecSize lp.a_start_
      · rcases hn : vecAt lp.a_matrix_.start lp.num_col_ with _ | nz
        · by_cases hs : 0 < vecSize lp.a_matrix_.start
          · rcases h0 : vecAt lp.a_matrix_.start 0 with _ | s0 <;>
              simp [dimensionsOk, hc, hr, hl, hs, h0, hn]
          · simp [dimensionsOk, hc, hr, hl, hs, hn]
        · by_cases hz : nz < 0
          · have hz2 : ¬ 0 ≤ nz := not_le.mpr hz
            by_cases hs : 0 < vecSize lp.a_matrix_.start
            · rcases h0 : vecAt lp.a_matrix_.start 0 with _ | s0 <;>
                simp [dimensionsOk, hc, hr, hl, hs, h0, hn, hz, hz2]
            · simp [dimensionsOk, hc, hr, hl, hs, hn, hz, hz2]
          · have hz2 : 0 ≤ nz := not_lt.mp hz
            by_cases hst : lp.scale_.strategy = 0 <;>
            by_cases hp : 0 < lp.num_col_ <;>
            by_cases hs : 0 < vecSize lp.a_matrix_.start
            all_goals
              rcases h0 : vecAt lp.a_matrix_.start 0 with _ | s0 <;>
                simp [dimensionsOk, hc, hr, hl, hs, h0, hn, hz, hz2, hst, hp] <;> tauto
      · by_cases hs : 0 < vecSize lp.a_matrix_.start
        · rcases h0 : vecAt lp.a_matrix_.start 0 with _ | s0 <;>
            simp [dimensionsOk, hc, hr, hl, hs, h0]
        · simp [dimensionsOk, hc, hr, hl, hs]
    · simp [dimensionsOk, hc, hr]
  · simp [dimensionsOk, hc]

theorem dimensionsAndaMatrixOk_eq_some_true_iff {D : Type} [BEq D]
    (lp : HighsLp D) (m : String) :
    dimensionsAndaMatrixOk lp m = some true ↔
      dimensionsOk lp m = some true ∧ aMatrixOk lp m = true := by
  unfold dimensionsAndaMatrixOk
  rcases hd : dimensionsOk lp m with _ | d
  · simp
  · cases d <;> simp

/-- C1.  `aMatrixOk` returns true exactly when the matrix object has the
format and the counts of the model and its `start`, `index` and `value` are,
as whole sequences, the legacy `a_start_`, `a_index_` and `a_value_`.  On the
model of three columns with `a_start_ = [0,2,2,5]` and matrix-object
`start = [0,2,2,4]` it returns false, and true once `a_start_` is made
`[0,2,2,4]` too. -/
theorem aMatrixOk_iff_mirrors :
    (∀ (D : Type) [BEq D] (lp : HighsLp D) (message : String),
      aMatrixOk lp message = true ↔
        (lp.a_matrix_.format = lp.format_ ∧
          lp.a_matrix_.num_col = lp.num_col_ ∧
          lp.a_matrix_.num_row = lp.num_row_ ∧
          lp.a_matrix_.start = lp.a_start_ ∧
          lp.a_matrix_.index = lp.a_index_ ∧
          SameSeq lp.a_matrix_.value lp.a_value_)) ∧
    mismatchLp.num_col_ = 3 ∧ mismatchLp.a_start_ = [0, 2, 2, 5] ∧
    mismatchLp.a_matrix_.start = [0, 2, 2, 4] ∧
    aMatrixOk mismatchLp "check" = false ∧
    aMatrixOk { mismatchLp with a_start_ := mismatchLp.a_matrix_.start } "check"
      = true := by
  refine ⟨fun D _ lp message => aMatrixOk_eq_true_iff lp message, ?_, ?_, ?_, ?_, ?_⟩ <;>
    decide

/-- C2 (the code at the failing input).  `dimensionsOk` returns true on a
model of one column and one row whose `col_upper_` and `row_upper_` are empty:
the sizes of the upper-bound arrays are not among the checks. -/
theorem dimensionsOk_accepts_short_upper_arrays :
    dimensionsOk shortUpperLp "check" = some true ∧
    shortUpperLp.num_col_ = 1 ∧ vecSize shortUpperLp.col_upper_ = 0 ∧
    shortUpperLp.num_row_ = 1 ∧ vecSize shortUpperLp.row_upper_ = 0 := by
  decide

/-- C3.  When `dimensionsAndaMatrixOk` returns true the legacy triple is well
formed: `a_start_` has at least `num_col_ + 1` entries, `a_start_[0]` is `0`,
the declared count `a_start_[num_col_]` is non-negative, and `a_index_` and
`a_value_` have at least that many entries. -/
theorem dimensionsAndaMatrixOk_legacy_triple {D : Type} [BEq D]
    (lp : HighsLp D) (message : String)
    (h : dimensionsAndaMatrixOk lp message = some true) :
    lp.num_col_ + 1 ≤ vecSize lp.a_start_ ∧
    vecAt lp.a_start_ 0 = some 0 ∧
    ∃ num_nz, vecAt lp.a_start_ lp.num_col_ = some num_nz ∧ 0 ≤ num_nz ∧
      num_nz ≤ vecSize lp.a_index_ ∧ num_nz ≤ vecSize lp.a_value_ := by
  rw [dimensionsAndaMatrixOk_eq_some_true_iff, dimensionsOk_eq_some_true_iff,
    aMatrixOk_eq_true_iff] at h
  obtain ⟨⟨hc, -, -, -, hlen, -, -, -, -, hfirst, ⟨nz, hnz, hnz0, hidx, hval⟩, -, -⟩,
    -, -, -, hstart, hindex, hvalue⟩ := h
  rw [hstart] at hfirst hnz
  rw [hindex] at hidx
  rw [hvalue.vecSize_eq] at hval
  have hpos : 0 < vecSize lp.a_start_ := lt_of_lt_of_le (Int.lt_add_one_iff.mpr hc) hlen
  exact ⟨hlen, hfirst hpos, nz, hnz, hnz0, hidx, hval⟩

/-- C3 at a concrete model of three columns. -/
theorem dimensionsAndaMatrixOk_legacy_triple_witness :
    dimensionsAndaMatrixOk exampleLp "check" = some true ∧
    (exampleLp.num_col_ + 1 ≤ vecSize exampleLp.a_start_ ∧
      vecAt exampleLp.a_start_ 0 = some 0 ∧
      ∃ num_nz, vecAt exampleLp.a_start_ exampleLp.num_col_ = some num_nz ∧
        0 ≤ num_nz ∧ num_nz ≤ vecSize exampleLp.a_index_ ∧
        num_nz ≤ vecSize exampleLp.a_value_) :=
  ⟨by decide, dimensionsAndaMatrixOk_legacy_triple exampleLp "check" (by decide)⟩

theorem sameSeq_of_eq {α : Type} [BEq α] [LawfulBEq α] {xs ys : List α}
    (h : xs = ys) : SameSeq xs ys :=
  (vectorEq_iff_sameSeq xs ys).mp ((vectorEq_iff_eq xs ys).mpr h)

theorem vecSize_pos_of_vecAt {α : Type} {v : List α} {i : HighsInt} {a : α}
    (hi : 0 ≤ i) (h : vecAt v i = some a) : i < vecSize v := by
  by_contra hlt
  have hnone : vecAt v i = none :=
    (vecAt_eq_none_iff v i).mpr (Or.inr (not_lt.mp hlt))
  rw [hnone] at h
  exact Option.noConfusion h

/-- C5 (counterexample).  A model of one column whose format is `kNone`
satisfies invariants 1 to 4 as the specification words them, and
`dimensionsOk` returns false on it. -/
theorem dimensionsOk_rejects_format_none :
    SpecInvariants noFormatLp ∧ dimensionsOk noFormatLp "check" = some false := by
  refine ⟨⟨by decide, by decide, ?_, ⟨by decide, by decide, ?_, ?_⟩, ?_⟩, by decide⟩
  · exact ⟨rfl, rfl, rfl, rfl, rfl, sameSeq_of_eq rfl⟩
  · intro j hj a b ha hb
    have hj0 : j = 0 := by
      have : (j : Int) < 1 := hj
      omega
    subst hj0
    cases ha
    cases hb
    decide
  · exact ⟨1, by decide, by decide, by decide, by decide⟩
  · intro hne
    exact absurd rfl hne

/-- C5 (amended).  A model that satisfies invariants 1 to 4 and, in addition,
has a matrix format other than `kNone` whenever it has a column, and a scale
strategy that is not negative, is accepted by `dimensionsOk`. -/
theorem dimensionsOk_of_invariants {D : Type} [BEq D] (lp : HighsLp D)
    (message : String) (hinv : SpecInvariants lp)
    (hformat : 0 < lp.num_col_ → lp.format_ ≠ MatrixFormat.kNone)
    (hstrategy : 0 ≤ lp.scale_.strategy) :
    dimensionsOk lp message = some true := by
  rw [dimensionsOk_eq_some_true_iff]
  obtain ⟨⟨hc, hr⟩, ⟨hcost, hlower, -, hrlower, -⟩,
    ⟨hfmt, hncol, hnrow, hstart, hindex, hvalue⟩,
    ⟨hlen, hfirst, -, nz, hnz, hnz0, hidx, hval⟩, hscale⟩ := hinv
  refine ⟨hc, hr, hcost, hlower, hlen, hrlower, hncol, hnrow, ?_, ?_, ?_, hstrategy, ?_⟩
  · intro hpos
    refine ⟨hstart ▸ hlen, ?_⟩
    have hne : lp.a_matrix_.format ≠ MatrixFormat.kNone := hfmt ▸ hformat hpos
    revert hne
    cases lp.a_matrix_.format <;> simp [MatrixFormat.toHighsInt]
  · intro _
    rw [hstart]
    exact hfirst
  · refine ⟨nz, hstart ▸ hnz, hnz0, hindex ▸ hidx, ?_⟩
    rw [hvalue.vecSize_eq]
    exact hval
  · intro hne
    obtain ⟨h1, h2, h3, h4⟩ := hscale hne
    exact ⟨h1, h2, le_of_eq h4.symm, le_of_eq h3.symm⟩

theorem exampleLp_specInvariants : SpecInvariants exampleLp := by
  refine ⟨by decide, by decide, ⟨rfl, rfl, rfl, rfl, rfl, sameSeq_of_eq rfl⟩,
    ⟨by decide, by decide, ?_, ⟨4, by decide, by decide, by decide, by decide⟩⟩,
    fun hne => absurd rfl hne⟩
  intro j hj a b ha hb
  have hj3 : j < 3 := by
    have : (j : Int) < 3 := hj
    omega
  interval_cases j <;> cases ha <;> cases hb <;> decide

/-- C5 (amended) at a concrete model of three columns in column-wise format. -/
theorem dimensionsOk_of_invariants_witness :
    SpecInvariants exampleLp ∧
    (0 < exampleLp.num_col_ → exampleLp.format_ ≠ MatrixFormat.kNone) ∧
    0 ≤ exampleLp.scale_.strategy ∧
    dimensionsOk exampleLp "check" = some true :=
  ⟨exampleLp_specInvariants, fun _ => by decide, by decide,
    dimensionsOk_of_invariants exampleLp "check" exampleLp_specInvariants
      (fun _ => by decide) (by decide)⟩

/-- The reads of `dimensionsOk`: the result is undefined exactly when the
counts are non-negative, `a_start_` has more than `num_col_` entries and
`a_matrix_.start` has not.  The read of `a_matrix_.start[0]` is always in
range; the read of `a_matrix_.start[num_col_]` is the one that can fail. -/
theorem dimensionsOk_eq_none_iff {D : Type} (lp : HighsLp D) (m : String) :
    dimensionsOk lp m = none ↔
      0 ≤ lp.num_col_ ∧ 0 ≤ lp.num_row_ ∧
        lp.num_col_ + 1 ≤ vecSize lp.a_start_ ∧
        vecSize lp.a_matrix_.start ≤ lp.num_col_ := by
  by_cases hc : 0 ≤ lp.num_col_
  · by_cases hr : 0 ≤ lp.num_row_
    · have hfirst : 0 < vecSize lp.a_matrix_.start →
          ∃ s0, vecAt lp.a_matrix_.start 0 = some s0 := by
        intro hs
        rcases h0 : vecAt lp.a_matrix_.start 0 with _ | s0
        · rcases (vecAt_eq_none_iff _ _).mp h0 with h | h
          · exact absurd h (by decide)
          · exact absurd hs (not_lt.mpr h)
        · exact ⟨s0, rfl⟩
      by_cases hl : lp.num_col_ + 1 ≤ vecSize lp.a_start_
      · rcases hn : vecAt lp.a_matrix_.start lp.num_col_ with _ | nz
        · have hsz : vecSize lp.a_matrix_.start ≤ lp.num_col_ := by
            rcases (vecAt_eq_none_iff _ _).mp hn with h | h
            · exact absurd hc (not_le.mpr h)
            · exact h
          by_cases hs : 0 < vecSize lp.a_matrix_.start
          · obtain ⟨s0, h0⟩ := hfirst hs
            simp [dimensionsOk, hc, hr, hl, hs, h0, hn, hsz]
          · simp [dimensionsOk, hc, hr, hl, hs, hn, hsz]
        · have hsz : ¬ vecSize lp.a_matrix_.start ≤ lp.num_col_ :=
            not_le.mpr (vecSize_pos_of_vecAt hc hn)
          by_cases hs : 0 < vecSize lp.a_matrix_.start
          · obtain ⟨s0, h0⟩ := hfirst hs
            simp [dimensionsOk, hc, hr, hl, hs, h0, hn, hsz]
            split_ifs <;> simp
          · simp [dimensionsOk, hc, hr, hl, hs, hn, hsz]
            split_ifs <;> simp
      · by_cases hs : 0 < vecSize lp.a_matrix_.start
        · obtain ⟨s0, h0⟩ := hfirst hs
          simp [dimensionsOk, hc, hr, hl, hs, h0]
        · simp [dimensionsOk, hc, hr, hl, hs]
    · simp [dimensionsOk, hc, hr]
  · simp [dimensionsOk, hc]

/-- C6 (the code at the failing input).  On a model without columns whose
legacy `a_start_` has one entry while the `start` of the matrix object is
empty, `dimensionsOk` reads `a_matrix_.start[num_col_]` out of range: the read
is guarded by the size of `a_start_`, not by the size of `a_matrix_.start`. -/
theorem dimensionsOk_reads_out_of_range :
    unsyncedStartLp.num_col_ = 0 ∧
    vecSize unsyncedStartLp.a_start_ = 1 ∧
    vecSize unsyncedStartLp.a_matrix_.start = 0 ∧
    vecAt unsyncedStartLp.a_matrix_.start unsyncedStartLp.num_col_ = none ∧
    dimensionsOk unsyncedStartLp "check" = none := by
  decide

/-! ## The comparators -/

theorem equalButForNames_eq_true_iff {D : Type} [BEq D] (A B : HighsLp D) :
    equalButForNames A B = true ↔
      AgreeStructural A B ∧ A.model_name_ = B.model_name_ := by
  simp only [equalButForNames, AgreeStructural, Bool.and_true, Bool.and_eq_true,
    beq_iff_eq, vectorEq_iff_eq, vectorEq_iff_sameSeq]
  tauto

/-- C7 (counterexample).  Two models that agree on every member the claim
lists and differ in `model_name_` only are not equal under
`equalButForNames`. -/
theorem equalButForNames_model_name_differs :
    AgreeStructural exampleLp renamedModelLp ∧
    exampleLp.col_names_ = renamedModelLp.col_names_ ∧
    exampleLp.row_names_ = renamedModelLp.row_names_ ∧
    exampleLp.model_name_ ≠ renamedModelLp.model_name_ ∧
    equalButForNames exampleLp renamedModelLp = false := by
  refine ⟨?_, rfl, rfl, by decide, by decide⟩
  exact ⟨rfl, rfl, rfl, rfl, sameSeq_of_eq rfl, sameSeq_of_eq rfl, sameSeq_of_eq rfl,
    sameSeq_of_eq rfl, sameSeq_of_eq rfl, rfl, rfl, sameSeq_of_eq rfl, rfl, rfl, rfl,
    rfl, rfl, rfl, sameSeq_of_eq rfl, rfl, rfl, rfl, rfl, rfl, sameSeq_of_eq rfl,
    sameSeq_of_eq rfl⟩

/-- C7 (amended).  `equalButForNames` returns true exactly when the two models
agree on the counts, sense, offset, cost and bound arrays, both matrix
representations, the format, the internal scale state and the model name
`model_name_`; the column and row name arrays do not influence the result. -/
theorem equalButForNames_iff {D : Type} [BEq D] (A B : HighsLp D) :
    (equalButForNames A B = true ↔
      AgreeStructural A B ∧ A.model_name_ = B.model_name_) ∧
    ∀ (colA rowA colB rowB : List String),
      equalButForNames { A with col_names_ := colA, row_names_ := rowA }
        { B with col_names_ := colB, row_names_ := rowB } = equalButForNames A B :=
  ⟨equalButForNames_eq_true_iff A B, fun _ _ _ _ => rfl⟩

/-- C8.  `operator==` returns true exactly when `equalButForNames` does and the
column names and the row names are equal; hence two models that are equal but
for names and have different column names are unequal under `operator==` and
still equal under `equalButForNames`. -/
theorem operatorEq_iff {D : Type} [BEq D] (A B : HighsLp D) :
    (operatorEq A B = true ↔
      equalButForNames A B = true ∧ A.col_names_ = B.col_names_ ∧
        A.row_names_ = B.row_names_) ∧
    (equalButForNames A B = true → A.col_names_ ≠ B.col_names_ →
      operatorEq A B = false ∧ equalButForNames A B = true) := by
  have hiff : operatorEq A B = true ↔
      equalButForNames A B = true ∧ A.col_names_ = B.col_names_ ∧
        A.row_names_ = B.row_names_ := by
    simp only [operatorEq, Bool.and_eq_true, vectorEq_iff_eq]
    tauto
  refine ⟨hiff, fun heq hne => ⟨?_, heq⟩⟩
  rw [← Bool.not_eq_true]
  intro h
  exact hne (hiff.mp h).2.1

/-- C8 at two concrete models that differ in their column names only. -/
theorem operatorEq_iff_witness :
    equalButForNames exampleLp renamedColumnsLp = true ∧
    exampleLp.col_names_ ≠ renamedColumnsLp.col_names_ ∧
    operatorEq exampleLp renamedColumnsLp = false ∧
    operatorEq exampleLp exampleLp = true :=
  ⟨by decide, by decide,
    ((operatorEq_iff exampleLp renamedColumnsLp).2 (by decide) (by decide)).1,
    (operatorEq_iff exampleLp exampleLp).1.mpr ⟨by decide, rfl, rfl⟩⟩

/-- C9.  `equalScale` returns true exactly when the per-column and the per-row
factors of the model's scale and of the given scale record are the same
sequences; the message, the other members of either scale record and the
other members of the model do not influence the result. -/
theorem equalScale_iff {D : Type} [BEq D] (lp : HighsLp D) (message : String)
    (scale : SimplexScale D) :
    (equalScale lp message scale = true ↔
      SameSeq lp.scale_.col scale.col ∧ SameSeq lp.scale_.row scale.row) ∧
    ∀ (lp2 : HighsLp D) (message2 : String) (scale2 : SimplexScale D),
      lp2.scale_.col = lp.scale_.col → lp2.scale_.row = lp.scale_.row →
      scale2.col = scale.col → scale2.row = scale.row →
      equalScale lp2 message2 scale2 = equalScale lp message scale := by
  constructor
  · simp only [equalScale, Bool.and_true, Bool.and_eq_true, vectorEq_iff_sameSeq]
    tauto
  · intro lp2 message2 scale2 h1 h2 h3 h4
    simp only [equalScale, h1, h2, h3, h4]

/-- C9 at a concrete model and a scale record that share the factors and
differ in strategy, flag, dimensions and cost. -/
theorem equalScale_iff_witness :
    equalScale scaledLp "first" exampleScale = true ∧
    scaledLp.scale_.strategy ≠ exampleScale.strategy ∧
    equalScale exampleLp "second" { exampleScale with cost := 1 }
      = equalScale exampleLp "first" exampleScale :=
  ⟨(equalScale_iff scaledLp "first" exampleScale).1.mpr
      ⟨sameSeq_of_eq rfl, sameSeq_of_eq rfl⟩,
    by decide,
    (equalScale_iff exampleLp "first" exampleScale).2 exampleLp "second"
      { exampleScale with cost := 1 } rfl rfl rfl rfl⟩

/-! ## Reset -/

/-- C10.  After `clear` the counts are zero, every array of the model, the
`start`, `index` and `value` of the matrix object, the name arrays and
`integrality_` are empty, the sense is minimize, the offset is `0`, the format
is `kNone`, the model name is empty and the internal scale is at its default
(strategy off, no scaling, zero dimensions, cost `1`, no factors). -/
theorem clear_empty_state {D : Type} [Zero D] [One D] (lp : HighsLp D) :
    (clear lp).num_col_ = 0 ∧ (clear lp).num_row_ = 0 ∧
    (clear lp).a_start_ = [] ∧ (clear lp).a_index_ = [] ∧ (clear lp).a_value_ = [] ∧
    (clear lp).col_cost_ = [] ∧ (clear lp).col_lower_ = [] ∧
    (clear lp).col_upper_ = [] ∧
    (clear lp).row_lower_ = [] ∧ (clear lp).row_upper_ = [] ∧
    (clear lp).a_matrix_.start = [] ∧ (clear lp).a_matrix_.index = [] ∧
    (clear lp).a_matrix_.value = [] ∧
    (clear lp).col_names_ = [] ∧ (clear lp).row_names_ = [] ∧
    (clear lp).integrality_ = [] ∧
    (clear lp).sense_ = ObjSense.kMinimize ∧ (clear lp).offset_ = 0 ∧
    (clear lp).format_ = MatrixFormat.kNone ∧ (clear lp).model_name_ = "" ∧
    (clear lp).scale_.strategy = kSimplexScaleStrategyOff ∧
    (clear lp).scale_.has_scaling = false ∧
    (clear lp).scale_.num_col = 0 ∧ (clear lp).scale_.num_row = 0 ∧
    (clear lp).scale_.cost = 1 ∧
    (clear lp).scale_.col = [] ∧ (clear lp).scale_.row = [] := by
  simp [clear]

/-! ## Integrality -/

theorem vecAt_natCast {α : Type} (v : List α) (i : Nat) :
    vecAt v (i : Int) = v.get? i := by
  simp [vecAt]

theorem isMipLoop_eq (l : List HighsVarType) :
    ∀ (n i : Nat), i + n = l.length →
      isMipLoop l i n =
        some ((l.drop i).any (fun t => decide (t ≠ HighsVarType.kContinuous)))
  | 0, i, h => by
    have hi : l.length ≤ i := by omega
    simp [isMipLoop, List.drop_of_length_le hi]
  | n + 1, i, h => by
    have hi : i < l.length := by omega
    have hrec := isMipLoop_eq l n (i + 1) (by omega)
    rw [isMipLoop, vecAt_natCast, List.get?_eq_get hi]
    rw [List.drop_eq_getElem_cons hi]
    by_cases ht : l.get ⟨i, hi⟩ = HighsVarType.kContinuous
    · have ht2 : l[i] = HighsVarType.kContinuous := ht
      simp [ht, ht2, hrec]
    · have ht2 : ¬ l[i] = HighsVarType.kContinuous := ht
      have hmem : l[i] ∈ l.drop i := by
        rw [List.drop_eq_getElem_cons hi]
        exact List.mem_cons_self _ _
      simp [ht, ht2]
      exact ⟨l[i], hmem, ht2⟩

/-- C11.  On a model whose `integrality_` is empty or has exactly `num_col_`
entries, `isMip` returns, and it returns true exactly when some entry of
`integrality_` is not continuous; it returns false when `integrality_` is
empty and when every entry is continuous. -/
theorem isMip_iff {D : Type} (lp : HighsLp D)
    (h : lp.integrality_ = [] ∨ vecSize lp.integrality_ = lp.num_col_) :
    (isMip lp = some true ↔
      ∃ t ∈ lp.integrality_, t ≠ HighsVarType.kContinuous) ∧
    (isMip lp = some false ↔
      ∀ t ∈ lp.integrality_, t = HighsVarType.kContinuous) ∧
    (lp.integrality_ = [] → isMip lp = some false) := by
  by_cases hempty : lp.integrality_ = []
  · simp [isMip, vecSize, hempty]
  · have hsize : vecSize lp.integrality_ = lp.num_col_ := h.resolve_left hempty
    have hne : vecSize lp.integrality_ ≠ 0 := by
      simpa [vecSize] using hempty
    have hlen : 0 + lp.num_col_.toNat = lp.integrality_.length := by
      rw [← hsize]
      simp [vecSize]
    have hloop := isMipLoop_eq lp.integrality_ lp.num_col_.toNat 0 hlen
    have hcol : lp.num_col_ ≠ 0 := hsize ▸ hne
    simp [isMip, hsize, hcol, hloop, hempty]

/-- C11 at a model of three columns whose second column is integer. -/
theorem isMip_iff_witness :
    vecSize mixedIntegerLp.integrality_ = mixedIntegerLp.num_col_ ∧
    isMip mixedIntegerLp = some true ∧
    isMip exampleLp = some false :=
  ⟨by decide,
    (isMip_iff mixedIntegerLp (Or.inr (by decide))).1.mpr
      ⟨HighsVarType.kInteger, by decide, by decide⟩,
    (isMip_iff exampleLp (Or.inl rfl)).2.2 rfl⟩

/-! ## The objective -/

theorem toNat_le_length_of_le_vecSize {α : Type} {v : List α} {n : HighsInt}
    (h : n ≤ vecSize v) : n.toNat ≤ v.length :=
  Int.toNat_le.mpr h

theorem objectiveValueLoop_eq_foldl {D : Type} [Add D] [Mul D] (cost sol : List D) :
    ∀ (n i : Nat) (acc : D), i + n ≤ cost.length → i + n ≤ sol.length →
      objectiveValueLoop cost sol i n acc =
        some (List.foldl (· + ·) acc
          (List.zipWith (· * ·) ((cost.drop i).take n) ((sol.drop i).take n)))
  | 0, i, acc, _, _ => by simp [objectiveValueLoop]
  | n + 1, i, acc, hc, hs => by
    have hic : i < cost.length := by omega
    have his : i < sol.length := by omega
    have hrec := objectiveValueLoop_eq_foldl cost sol n (i + 1) (acc + cost[i] * sol[i])
      (by omega) (by omega)
    rw [objectiveValueLoop, vecAt_natCast, vecAt_natCast, List.get?_eq_get hic,
      List.get?_eq_get his]
    rw [List.drop_eq_getElem_cons hic, List.drop_eq_getElem_cons his]
    simp only [List.take_succ_cons, List.zipWith_cons_cons, List.foldl_cons,
      Option.bind_eq_bind, Option.some_bind, List.get_eq_getElem]
    exact hrec

theorem foldl_add_eq_add_sum {D : Type} [AddMonoid D] (l : List D) :
    ∀ a : D, List.foldl (· + ·) a l = a + l.sum := by
  induction l with
  | nil => intro a; simp
  | cons x xs ih => intro a; simp [ih, add_assoc]

/-- The value of `objectiveValue` in the order the loop accumulates it, for
any addition and multiplication: starting from `offset_`, the products
`col_cost_[i] * solution[i]` are added one after the other, for
`i = 0, ..., num_col_ - 1`. -/
theorem objectiveValue_eq_foldl {D : Type} [Add D] [Mul D] (lp : HighsLp D)
    (solution : List D) (hcost : lp.num_col_ ≤ vecSize lp.col_cost_)
    (hsol : lp.num_col_ ≤ vecSize solution) :
    objectiveValue lp solution =
      some (List.foldl (· + ·) lp.offset_
        (List.zipWith (· * ·) (lp.col_cost_.take lp.num_col_.toNat)
          (solution.take lp.num_col_.toNat))) := by
  have h := objectiveValueLoop_eq_foldl lp.col_cost_ solution lp.num_col_.toNat 0
    lp.offset_ (by simpa using toNat_le_length_of_le_vecSize hcost)
    (by simpa using toNat_le_length_of_le_vecSize hsol)
  simp only [objectiveValue, ge_iff_le, hsol, not_true_eq_false, if_false, h, List.drop_zero]

theorem col_cost_size_of_dimensionsOk {D : Type} (lp : HighsLp D) (m : String)
    (h : dimensionsOk lp m = some true) : lp.num_col_ ≤ vecSize lp.col_cost_ :=
  ((dimensionsOk_eq_some_true_iff lp m).mp h).2.2.1

/-- The value of `objectiveValue` in an additive monoid, where the order of
the additions does not matter: `offset_` plus the sum of
`col_cost_[i] * solution[i]` over `0 ≤ i < num_col_`. -/
theorem objectiveValue_eq_offset_add_sum {D : Type} [AddMonoid D] [Mul D]
    (lp : HighsLp D) (solution : List D)
    (hcost : lp.num_col_ ≤ vecSize lp.col_cost_)
    (hsol : lp.num_col_ ≤ vecSize solution) :
    objectiveValue lp solution =
      some (lp.offset_ +
        (List.zipWith (· * ·) (lp.col_cost_.take lp.num_col_.toNat)
          (solution.take lp.num_col_.toNat)).sum) ∧
    ∀ (cost_tail solution_tail : List D),
      objectiveValue
          { lp with col_cost_ := lp.col_cost_.take lp.num_col_.toNat ++ cost_tail }
          (solution.take lp.num_col_.toNat ++ solution_tail) =
        objectiveValue lp solution := by
  have hc := toNat_le_length_of_le_vecSize hcost
  have hs := toNat_le_length_of_le_vecSize hsol
  refine ⟨?_, ?_⟩
  · rw [objectiveValue_eq_foldl lp solution hcost hsol, foldl_add_eq_add_sum]
  · intro cost_tail solution_tail
    have hcost2 : lp.num_col_ ≤
        vecSize (lp.col_cost_.take lp.num_col_.toNat ++ cost_tail) := by
      apply Int.toNat_le.mp
      simp [List.length_take, hc]
    have hsol2 : lp.num_col_ ≤
        vecSize (solution.take lp.num_col_.toNat ++ solution_tail) := by
      apply Int.toNat_le.mp
      simp [List.length_take, hs]
    rw [objectiveValue_eq_foldl lp solution hcost hsol,
      objectiveValue_eq_foldl
        { lp with col_cost_ := lp.col_cost_.take lp.num_col_.toNat ++ cost_tail }
        _ hcost2 hsol2]
    simp [List.take_append_of_le_length, List.length_take, hc, hs, List.take_take]

/-- The value in an additive monoid at a model of three columns with costs
`1, 1, 1`, offset `0` and a solution of four entries, the fourth of which is
not read. -/
theorem objectiveValue_eq_offset_add_sum_witness :
    exampleLp.num_col_ ≤ vecSize exampleLp.col_cost_ ∧
    exampleLp.num_col_ ≤ vecSize ([2, 3, 4, 100] : List Int) ∧
    objectiveValue exampleLp [2, 3, 4, 100] = some (0 + (2 + (3 + (4 + 0)))) ∧
    objectiveValue { exampleLp with col_cost_ := [1, 1, 1, 7] } [2, 3, 4, 50, 60]
      = objectiveValue exampleLp [2, 3, 4, 100] :=
  ⟨by decide, by decide,
    (objectiveValue_eq_offset_add_sum exampleLp [2, 3, 4, 100]
      (by decide) (by decide)).1,
    (objectiveValue_eq_offset_add_sum exampleLp [2, 3, 4, 100]
      (by decide) (by decide)).2 [7] [50, 60]⟩

theorem foldl_add_eq_add_foldr {D : Type} [Add D] (zero : D)
    (hassoc : ∀ a b c : D, a + b + c = a + (b + c)) (hzero : ∀ a : D, a + zero = a)
    (l : List D) :
    ∀ a : D, List.foldl (· + ·) a l = a + List.foldr (· + ·) zero l := by
  induction l with
  | nil => intro a; simp [hzero]
  | cons x xs ih => intro a; simp [ih, hassoc]

/-- C17 (counterexample).  In the floating-point format with a significand of
three bits, for the model of two columns with costs `1, 1` and offset `8` and
the solution `[1, 1]`: `objectiveValue` adds the products to the offset one
after the other and returns `8`, each sum `8 + 1` being rounded to `8`, while
`offset_` plus the sum of the products is `8 + 2 = 10`. -/
theorem objectiveValue_rounding_order :
    tinyLp.num_col_ ≤ vecSize tinyLp.col_cost_ ∧
    tinyLp.num_col_ ≤ vecSize ([⟨1⟩, ⟨1⟩] : List TinyFloat) ∧
    objectiveValue tinyLp [⟨1⟩, ⟨1⟩] = some ⟨8⟩ ∧
    tinyLp.offset_ +
        List.foldr (· + ·) 0
          (List.zipWith (· * ·) (tinyLp.col_cost_.take tinyLp.num_col_.toNat)
            (([⟨1⟩, ⟨1⟩] : List TinyFloat).take tinyLp.num_col_.toNat)) =
      ⟨10⟩ ∧
    objectiveValue tinyLp [⟨1⟩, ⟨1⟩] ≠
      some (tinyLp.offset_ +
        List.foldr (· + ·) 0
          (List.zipWith (· * ·) (tinyLp.col_cost_.take tinyLp.num_col_.toNat)
            (([⟨1⟩, ⟨1⟩] : List TinyFloat).take tinyLp.num_col_.toNat))) := by
  decide

/-- C17 (amended).  When `col_cost_` and the solution have at least `num_col_`
entries, `objectiveValue` reads no element out of range and returns the value
accumulated from `offset_` by adding the products `col_cost_[i] * solution[i]`
one after the other, for `i = 0, ..., num_col_ - 1`, whatever the addition and
the multiplication are; replacing the entries of `col_cost_` and of the
solution from index `num_col_` on by any others leaves the result unchanged;
and when the addition is associative with a neutral `zero`, the result is
`offset_` plus the sum of the products. -/
theorem objectiveValue_accumulates {D : Type} [Add D] [Mul D]
    (lp : HighsLp D) (solution : List D)
    (hcost : lp.num_col_ ≤ vecSize lp.col_cost_)
    (hsol : lp.num_col_ ≤ vecSize solution) :
    objectiveValue lp solution =
      some (List.foldl (· + ·) lp.offset_
        (List.zipWith (· * ·) (lp.col_cost_.take lp.num_col_.toNat)
          (solution.take lp.num_col_.toNat))) ∧
    (∀ (cost_tail solution_tail : List D),
      objectiveValue
          { lp with col_cost_ := lp.col_cost_.take lp.num_col_.toNat ++ cost_tail }
          (solution.take lp.num_col_.toNat ++ solution_tail) =
        objectiveValue lp solution) ∧
    (∀ zero : D, (∀ a b c : D, a + b + c = a + (b + c)) → (∀ a : D, a + zero = a) →
      objectiveValue lp solution =
        some (lp.offset_ +
          List.foldr (· + ·) zero
            (List.zipWith (· * ·) (lp.col_cost_.take lp.num_col_.toNat)
              (solution.take lp.num_col_.toNat)))) := by
  have hc := toNat_le_length_of_le_vecSize hcost
  have hs := toNat_le_length_of_le_vecSize hsol
  refine ⟨objectiveValue_eq_foldl lp solution hcost hsol, ?_, ?_⟩
  · intro cost_tail solution_tail
    have hcost2 : lp.num_col_ ≤
        vecSize (lp.col_cost_.take lp.num_col_.toNat ++ cost_tail) := by
      apply Int.toNat_le.mp
      simp [List.length_take, hc]
    have hsol2 : lp.num_col_ ≤
        vecSize (solution.take lp.num_col_.toNat ++ solution_tail) := by
      apply Int.toNat_le.mp
      simp [List.length_take, hs]
    rw [objectiveValue_eq_foldl lp solution hcost hsol,
      objectiveValue_eq_foldl
        { lp with col_cost_ := lp.col_cost_.take lp.num_col_.toNat ++ cost_tail }
        _ hcost2 hsol2]
    simp [List.take_append_of_le_length, List.length_take, hc, hs, List.take_take]
  · intro zero hassoc hzero
    rw [objectiveValue_eq_foldl lp solution hcost hsol,
      foldl_add_eq_add_foldr zero hassoc hzero]

/-- C17 (amended) at the model over the three-bit floating-point format, where
the accumulated value is `(8 + 1 * 1) + 1 * 1 = 8`, and at the model of three
columns over the integers with a solution of four entries, the fourth of which
is not read. -/
theorem objectiveValue_accumulates_witness :
    tinyLp.num_col_ ≤ vecSize tinyLp.col_cost_ ∧
    tinyLp.num_col_ ≤ vecSize ([⟨1⟩, ⟨1⟩] : List TinyFloat) ∧
    objectiveValue tinyLp [⟨1⟩, ⟨1⟩] =
      some ((tinyLp.offset_ + (⟨1⟩ : TinyFloat) * ⟨1⟩) + (⟨1⟩ : TinyFloat) * ⟨1⟩) ∧
    objectiveValue { exampleLp with col_cost_ := [1, 1, 1, 7] } [2, 3, 4, 50, 60]
      = objectiveValue exampleLp [2, 3, 4, 100] ∧
    objectiveValue exampleLp [2, 3, 4, 100] = some (0 + (2 + (3 + (4 + 0)))) :=
  ⟨by decide, by decide,
    (objectiveValue_accumulates tinyLp [⟨1⟩, ⟨1⟩] (by decide) (by decide)).1,
    (objectiveValue_accumulates exampleLp [2, 3, 4, 100] (by decide) (by decide)).2.1
      [7] [50, 60],
    (objectiveValue_accumulates exampleLp [2, 3, 4, 100] (by decide) (by decide)).2.2
      0 (fun a b c => Int.add_assoc a b c) (fun a => Int.add_zero a)⟩

theorem vecAt_map {α β : Type} (f : α → β) (v : List α) (i : HighsInt) :
    vecAt (v.map f) i = (vecAt v i).map f := by
  unfold vecAt
  split <;> simp

theorem objectiveValueLoop_scaled {K : Type} [CommRing K] (cost sol : List K)
    (s t o : K) :
    ∀ (n i : Nat) (acc : K),
      objectiveValueLoop (cost.map (· * s)) (sol.map (· * t)) i n
          (o + s * t * (acc - o)) =
        (objectiveValueLoop cost sol i n acc).map (fun V => o + s * t * (V - o))
  | 0, i, acc => by simp [objectiveValueLoop]
  | n + 1, i, acc => by
    rw [objectiveValueLoop, objectiveValueLoop, vecAt_map, vecAt_map]
    rcases vecAt cost (i : Int) with _ | c
    · simp
    · rcases vecAt sol (i : Int) with _ | x
      · simp
      · have hrec := objectiveValueLoop_scaled cost sol s t o n (i + 1) (acc + c * x)
        have hacc : o + s * t * (acc - o) + c * s * (x * t) =
            o + s * t * (acc + c * x - o) := by ring
        simp only [Option.map_some', Option.bind_eq_bind, Option.some_bind, hacc]
        exact hrec

/-- C12 (counterexample).  For the model of one column with cost `3` and
offset `1`, the solution `[5]` and the exponents `c = 1`, `b = 0`:
the objective is `16`, the objective of the scaled costs at the scaled
solution is `31`, and `2^1 * 2^0 * 16` is `32`. -/
theorem objectiveValue_scaled_with_offset :
    objectiveValue offsetLp [5] = some 16 ∧
    objectiveValue
        { offsetLp with col_cost_ := offsetLp.col_cost_.map (· * (2 : ℚ) ^ (1 : Int)) }
        (([5] : List ℚ).map (· * (2 : ℚ) ^ (0 : Int))) = some 31 ∧
    (31 : ℚ) ≠ (2 : ℚ) ^ (1 : Int) * (2 : ℚ) ^ (0 : Int) * 16 := by
  refine ⟨?_, ?_, ?_⟩
  · simp [objectiveValue, objectiveValueLoop, offsetLp, emptyLp, vecAt, vecSize]
    norm_num
  · simp [objectiveValue, objectiveValueLoop, offsetLp, emptyLp, vecAt, vecSize]
    norm_num
  · norm_num

/-- C12 (amended).  In exact arithmetic, for a solution of at least `num_col_`
entries, the objective of the model whose column costs are multiplied by `2^c`,
at the solution whose entries are multiplied by `2^b`, is
`offset_ + 2^c * 2^b * (V - offset_)`, where `V` is the objective of the
original model at the original solution: the offset is not scaled.  It is
`2^c * 2^b * V` when the offset is zero.  `V` exists when `col_cost_` has at
least `num_col_` entries. -/
theorem objectiveValue_user_scaled {K : Type} [Field K] (lp : HighsLp K)
    (solution : List K) (c b : Int) (hsol : lp.num_col_ ≤ vecSize solution) :
    (objectiveValue { lp with col_cost_ := lp.col_cost_.map (· * (2 : K) ^ c) }
        (solution.map (· * (2 : K) ^ b)) =
      (objectiveValue lp solution).map
        (fun V => lp.offset_ + (2 : K) ^ c * (2 : K) ^ b * (V - lp.offset_))) ∧
    (lp.offset_ = 0 →
      objectiveValue { lp with col_cost_ := lp.col_cost_.map (· * (2 : K) ^ c) }
          (solution.map (· * (2 : K) ^ b)) =
        (objectiveValue lp solution).map (fun V => (2 : K) ^ c * (2 : K) ^ b * V)) ∧
    (lp.num_col_ ≤ vecSize lp.col_cost_ → ∃ V, objectiveValue lp solution = some V) := by
  have hmain :
      objectiveValue { lp with col_cost_ := lp.col_cost_.map (· * (2 : K) ^ c) }
          (solution.map (· * (2 : K) ^ b)) =
        (objectiveValue lp solution).map
          (fun V => lp.offset_ + (2 : K) ^ c * (2 : K) ^ b * (V - lp.offset_)) := by
    have hloop := objectiveValueLoop_scaled lp.col_cost_ solution ((2 : K) ^ c)
      ((2 : K) ^ b) lp.offset_ lp.num_col_.toNat 0 lp.offset_
    have hstart : lp.offset_ + (2 : K) ^ c * (2 : K) ^ b * (lp.offset_ - lp.offset_) =
        lp.offset_ := by ring
    rw [hstart] at hloop
    have hsol2 : lp.num_col_ ≤ vecSize (solution.map (· * (2 : K) ^ b)) := by
      simpa [vecSize] using hsol
    simp only [objectiveValue, ge_iff_le, hsol, hsol2, not_true_eq_false, if_false]
    exact hloop
  refine ⟨hmain, ?_, ?_⟩
  · intro h0
    rw [hmain, h0]
    simp
  · intro hcost
    exact ⟨_, objectiveValue_eq_foldl lp solution hcost hsol⟩

/-- C12 (amended) at the model of one column with cost `3` and offset `1`, the
solution `[5]` and the exponents `c = 1`, `b = 0`. -/
theorem objectiveValue_user_scaled_witness :
    offsetLp.num_col_ ≤ vecSize ([5] : List ℚ) ∧
    objectiveValue
        { offsetLp with col_cost_ := offsetLp.col_cost_.map (· * (2 : ℚ) ^ (1 : Int)) }
        (([5] : List ℚ).map (· * (2 : ℚ) ^ (0 : Int))) =
      (objectiveValue offsetLp [5]).map
        (fun V => offsetLp.offset_ +
          (2 : ℚ) ^ (1 : Int) * (2 : ℚ) ^ (0 : Int) * (V - offsetLp.offset_)) :=
  ⟨by decide, (objectiveValue_user_scaled offsetLp [5] 1 0 (by decide)).1⟩

/-! ## The user-scale engine -/

theorem XDouble.timesPow2_zero (v : XDouble) : v.timesPow2 0 = v := by
  cases v <;> simp [XDouble.timesPow2]

theorem XDouble.timesPow2_timesPow2 (v : XDouble) (j k : Int) :
    (v.timesPow2 j).timesPow2 k = v.timesPow2 (j + k) := by
  cases v with
  | negInf => rfl
  | posInf => rfl
  | fin q =>
    simp only [XDouble.timesPow2]
    rw [mul_assoc, ← zpow_add₀ (two_ne_zero : (2 : ℚ) ≠ 0)]

theorem XDouble.timesPow2_of_isInfinite (v : XDouble) (k : Int)
    (h : v.isInfinite = true) : v.timesPow2 k = v := by
  cases v <;> simp_all [XDouble.timesPow2, XDouble.isInfinite]

theorem scaleBound_eq_timesPow2 (k : Int) (v : XDouble) :
    scaleBound k v = v.timesPow2 k := by
  cases v <;> simp [scaleBound, XDouble.isInfinite, XDouble.timesPow2]

theorem scaleBound_of_isInfinite (k : Int) (v : XDouble)
    (h : v.isInfinite = true) : scaleBound k v = v := by
  simp [scaleBound, h]

theorem boundsScaled_map (b : Int) (excluded : XDouble) (l : List XDouble) :
    BoundsScaled b excluded l (l.map (scaleBound b)) := by
  refine ⟨by simp, ?_⟩
  intro i v hv
  rw [List.get?_eq_getElem?] at hv
  refine ⟨fun _ => ?_, fun hinf => ?_⟩
  · simp [List.getElem?_map, hv, scaleBound_eq_timesPow2]
  · simp [List.getElem?_map, hv, scaleBound_of_isInfinite b v hinf]

theorem costsScaled_map (c : Int) (l : List XDouble) :
    CostsScaled c l (l.map (fun cost => cost.timesPow2 c)) := by
  refine ⟨by simp, ?_⟩
  intro i v hv
  rw [List.get?_eq_getElem?] at hv
  simp [List.getElem?_map, hv]

/-- The delta rule on costs: costs stored at the exponent `c0` and multiplied
by `2^(c - c0)` are the costs stored at the exponent `c`. -/
theorem costsScaled_rescale {c0 c : Int} {unscaled stored : List XDouble}
    (h : CostsScaled c0 unscaled stored) :
    CostsScaled c unscaled (stored.map (fun cost => cost.timesPow2 (c - c0))) := by
  refine ⟨by simpa using h.1, ?_⟩
  intro i v hv
  have hs := h.2 i v hv
  rw [List.get?_eq_getElem?] at hs ⊢
  rw [List.getElem?_map, hs]
  simp [XDouble.timesPow2_timesPow2]

/-- The delta rule on bounds: bounds stored at the exponent `b0` and scaled by
`2^(b - b0)` are the bounds stored at the exponent `b`. -/
theorem boundsScaled_rescale {b0 b : Int} {excluded : XDouble}
    {unscaled stored : List XDouble} (hexcluded : excluded.isInfinite = true)
    (h : BoundsScaled b0 excluded unscaled stored) :
    BoundsScaled b excluded unscaled (stored.map (scaleBound (b - b0))) := by
  refine ⟨by simpa using h.1, ?_⟩
  intro i v hv
  have hs : stored.get? i = some (v.timesPow2 b0) := by
    by_cases hve : v = excluded
    · have hinf : v.isInfinite = true := hve ▸ hexcluded
      rw [XDouble.timesPow2_of_isInfinite v b0 hinf]
      exact (h.2 i v hv).2 hinf
    · exact (h.2 i v hv).1 hve
  have hnew : (stored.map (scaleBound (b - b0))).get? i = some (v.timesPow2 b) := by
    rw [List.get?_eq_getElem?] at hs ⊢
    rw [List.getElem?_map, hs]
    simp [scaleBound_eq_timesPow2, XDouble.timesPow2_timesPow2]
  refine ⟨fun _ => hnew, fun hinf => ?_⟩
  rw [hnew, XDouble.timesPow2_of_isInfinite v b hinf]

/-- A model stored at the default exponents is stored in the units of the
user. -/
theorem storedScaled_default (unscaled : HighsLp XDouble) :
    StoredScaled unscaled ⟨unscaled, 0, 0⟩ := by
  have hcost : ∀ l : List XDouble, CostsScaled 0 l l := by
    intro l
    refine ⟨rfl, fun i v hv => ?_⟩
    rw [hv, XDouble.timesPow2_zero]
  have hbound : ∀ (e : XDouble) (l : List XDouble), BoundsScaled 0 e l l := by
    intro e l
    refine ⟨rfl, fun i v hv => ⟨fun _ => ?_, fun _ => hv⟩⟩
    rw [hv, XDouble.timesPow2_zero]
  exact ⟨hcost _, hbound _ _, hbound _ _, hbound _ _, hbound _ _⟩

/-- C13 (counterexample).  In the engine as the specification describes it,
the exponent `5000` has no finitely representable factor: setting
`user_bound_scale = 5000` on a stored model reports an error and mutates
nothing, so the first column lower bound, `1`, is still `1` and not
`1 * 2^5000`. -/
theorem setUserBoundScale_rejects_overflow :
    factorRepresentable 5000 = false ∧
    (setUserBoundScale ⟨boundedLp, 0, 0⟩ 5000).1 = HighsStatus.kError ∧
    boundedLp.col_lower_.get? 0 = some (XDouble.fin 1) ∧
    (setUserCostScale (setUserBoundScale ⟨boundedLp, 0, 0⟩ 5000).2 0).2.lp.col_lower_.get? 0
      = some (XDouble.fin 1) ∧
    XDouble.fin 1 ≠ (XDouble.fin 1).timesPow2 5000 := by
  refine ⟨by decide, by decide, rfl, rfl, ?_⟩
  intro h
  simp only [XDouble.timesPow2, XDouble.fin.injEq, one_mul] at h
  have hlt : (1 : ℚ) < (2 : ℚ) ^ (5000 : Int) :=
    one_lt_zpow₀ (by norm_num) (by norm_num)
  rw [← h] at hlt
  exact absurd hlt (lt_irrefl _)

/-- C13 (amended).  In the engine as the specification describes it, let the
stored model be the model `unscaled` at the exponents the engine records.
When the factors `2^b` and `2^c` are finitely representable, setting
`user_bound_scale = b` and `user_cost_scale = c` succeeds, and then every
column cost is the unscaled cost times `2^c`, every column and row lower bound
other than minus infinity and every column and row upper bound other than plus
infinity is the unscaled bound times `2^b`, every bound that was at an
infinity sentinel is still that sentinel, and the exponents recorded are `b`
and `c`.  An exponent whose factor is not finitely representable is reported
as an error and nothing is mutated. -/
theorem setUserScale_stored_model (unscaled : HighsLp XDouble) (s : UserScaledLp)
    (b c : Int) (hstored : StoredScaled unscaled s) :
    (factorRepresentable b = true → factorRepresentable c = true →
      (setUserBoundScale s b).1 = HighsStatus.kOk ∧
      (setUserCostScale (setUserBoundScale s b).2 c).1 = HighsStatus.kOk ∧
      CostsScaled c unscaled.col_cost_
        (setUserCostScale (setUserBoundScale s b).2 c).2.lp.col_cost_ ∧
      BoundsScaled b XDouble.negInf unscaled.col_lower_
        (setUserCostScale (setUserBoundScale s b).2 c).2.lp.col_lower_ ∧
      BoundsScaled b XDouble.posInf unscaled.col_upper_
        (setUserCostScale (setUserBoundScale s b).2 c).2.lp.col_upper_ ∧
      BoundsScaled b XDouble.negInf unscaled.row_lower_
        (setUserCostScale (setUserBoundScale s b).2 c).2.lp.row_lower_ ∧
      BoundsScaled b XDouble.posInf unscaled.row_upper_
        (setUserCostScale (setUserBoundScale s b).2 c).2.lp.row_upper_ ∧
      (setUserCostScale (setUserBoundScale s b).2 c).2.user_bound_scale = b ∧
      (setUserCostScale (setUserBoundScale s b).2 c).2.user_cost_scale = c) ∧
    (factorRepresentable b = false →
      setUserBoundScale s b = (HighsStatus.kError, s)) ∧
    (factorRepresentable c = false →
      setUserCostScale s c = (HighsStatus.kError, s)) := by
  obtain ⟨hcost, hcl, hcu, hrl, hru⟩ := hstored
  refine ⟨fun hb hc => ?_, fun hb => ?_, fun hc => ?_⟩
  · simp only [setUserCostScale, setUserBoundScale, hb, hc, if_true]
    exact ⟨trivial, trivial, costsScaled_rescale hcost, boundsScaled_rescale rfl hcl,
      boundsScaled_rescale rfl hcu, boundsScaled_rescale rfl hrl,
      boundsScaled_rescale rfl hru, trivial, trivial⟩
  · simp [setUserBoundScale, hb]
  · simp [setUserCostScale, hc]

/-- C13 (amended) at a stored model of two columns and one row, first from
the default exponents to `b = 3`, `c = -2`, then on from there to `b = -1`,
`c = 5`: after the second setting the first cost `3` is `3 * 2^5`, the first
lower bound `1` is `1 * 2^(-1)` and the infinite upper bound of the first
column is still infinite. -/
theorem setUserScale_stored_model_witness :
    StoredScaled boundedLp ⟨boundedLp, 0, 0⟩ ∧
    factorRepresentable 3 = true ∧ factorRepresentable (-2) = true ∧
    factorRepresentable (-1) = true ∧ factorRepresentable 5 = true ∧
    (setUserCostScale
        (setUserBoundScale
          (setUserCostScale (setUserBoundScale ⟨boundedLp, 0, 0⟩ 3).2 (-2)).2
          (-1)).2 5).2.lp.col_cost_.get? 0
      = some ((XDouble.fin 3).timesPow2 5) ∧
    (setUserCostScale
        (setUserBoundScale
          (setUserCostScale (setUserBoundScale ⟨boundedLp, 0, 0⟩ 3).2 (-2)).2
          (-1)).2 5).2.lp.col_lower_.get? 0
      = some ((XDouble.fin 1).timesPow2 (-1)) ∧
    (setUserCostScale
        (setUserBoundScale
          (setUserCostScale (setUserBoundScale ⟨boundedLp, 0, 0⟩ 3).2 (-2)).2
          (-1)).2 5).2.lp.col_upper_.get? 0
      = some XDouble.posInf :=
  have hfirst := (setUserScale_stored_model boundedLp ⟨boundedLp, 0, 0⟩ 3 (-2)
    (storedScaled_default boundedLp)).1 (by decide) (by decide)
  have hmid : StoredScaled boundedLp
      (setUserCostScale (setUserBoundScale ⟨boundedLp, 0, 0⟩ 3).2 (-2)).2 :=
    ⟨hfirst.2.2.1, hfirst.2.2.2.1, hfirst.2.2.2.2.1, hfirst.2.2.2.2.2.1,
      hfirst.2.2.2.2.2.2.1⟩
  have hsecond := (setUserScale_stored_model boundedLp
    (setUserCostScale (setUserBoundScale ⟨boundedLp, 0, 0⟩ 3).2 (-2)).2 (-1) 5 hmid).1
    (by decide) (by decide)
  ⟨storedScaled_default boundedLp, by decide, by decide, by decide, by decide,
    hsecond.2.2.1.2 0 (XDouble.fin 3) rfl,
    (hsecond.2.2.2.1.2 0 (XDouble.fin 1) rfl).1 (by decide),
    (hsecond.2.2.2.2.1.2 0 XDouble.posInf rfl).2 rfl⟩

/-- C14 (counterexample).  In the engine as the specification describes it,
the cost `7` is written to a column and `user_cost_scale` is then set to
`5000`, an exponent without a finitely representable factor: the setting
reports an error, mutates nothing, and the stored cost is `7`, not
`7 * 2^5000`. -/
theorem setUserCostScale_rejects_overflow :
    factorRepresentable 5000 = false ∧
    (setUserCostScale (changeColCost ⟨boundedLp, 0, 0⟩ 0 (XDouble.fin 7)) 5000).1
      = HighsStatus.kError ∧
    (setUserCostScale
        (changeColCost ⟨boundedLp, 0, 0⟩ 0 (XDouble.fin 7)) 5000).2.lp.col_cost_.get? 0
      = some (XDouble.fin 7) ∧
    XDouble.fin 7 ≠ XDouble.fin (7 * (2 : ℚ) ^ (5000 : Int)) := by
  refine ⟨by decide, by decide, ?_, ?_⟩
  · simp [setUserCostScale, changeColCost, factorRepresentable, boundedLp, emptyLp,
      XDouble.timesPow2]
  · intro h
    simp only [XDouble.fin.injEq] at h
    have hlt : (1 : ℚ) < (2 : ℚ) ^ (5000 : Int) :=
      one_lt_zpow₀ (by norm_num) (by norm_num)
    have h7 : (7 : ℚ) * 1 < 7 * (2 : ℚ) ^ (5000 : Int) :=
      mul_lt_mul_of_pos_left hlt (by norm_num)
    rw [← h] at h7
    simp at h7

/-- C14 (amended).  In the engine as the specification describes it, for a
cost-scale exponent `c` whose factor is finitely representable: a cost `x`
written to a column and followed by setting `user_cost_scale = c` is stored as
`x * 2^c`; a cost `y` written after the option is set is stored as `y * 2^c`;
and the build of the test (add a column, write `x`, set the option, add a
column, write `y`) on a new model stores the costs `x * 2^c` and `y * 2^c`.
For an exponent whose factor is not finitely representable the setting is
reported as an error and the stored costs are not changed. -/
theorem cost_stored_times_pow2 (s : UserScaledLp) (iCol : Nat) (x y : ℚ) (c : Int)
    (h : iCol < s.lp.col_cost_.length) :
    (factorRepresentable c = true →
      (setUserCostScale (changeColCost s iCol (XDouble.fin x)) c).1 = HighsStatus.kOk ∧
      (setUserCostScale (changeColCost s iCol (XDouble.fin x)) c).2.lp.col_cost_.get? iCol
        = some (XDouble.fin (x * (2 : ℚ) ^ c)) ∧
      (changeColCost (setUserCostScale s c).2 iCol (XDouble.fin y)).lp.col_cost_.get? iCol
        = some (XDouble.fin (y * (2 : ℚ) ^ c)) ∧
      (changeColCost
          (addVar
            (setUserCostScale
              (changeColCost (addVar initialUserScaledLp (XDouble.fin 0) (XDouble.fin 1))
                0 (XDouble.fin x)) c).2
            (XDouble.fin 0) (XDouble.fin 1))
          1 (XDouble.fin y)).lp.col_cost_
        = [XDouble.fin (x * (2 : ℚ) ^ c), XDouble.fin (y * (2 : ℚ) ^ c)]) ∧
    (factorRepresentable c = false →
      setUserCostScale (changeColCost s iCol (XDouble.fin x)) c =
        (HighsStatus.kError, changeColCost s iCol (XDouble.fin x))) := by
  refine ⟨fun hc => ⟨?_, ?_, ?_, ?_⟩, fun hc => ?_⟩
  · simp [setUserCostScale, hc]
  · have hcomp := XDouble.timesPow2_timesPow2 (XDouble.fin x) s.user_cost_scale
      (c - s.user_cost_scale)
    rw [add_sub_cancel] at hcomp
    simp only [setUserCostScale, changeColCost, hc, if_true]
    rw [List.get?_eq_getElem?, List.getElem?_map, List.getElem?_set_self h]
    simpa [XDouble.timesPow2] using hcomp
  · simp only [setUserCostScale, changeColCost, hc, if_true]
    rw [List.get?_eq_getElem?, List.getElem?_set_self (by simpa using h)]
    simp [XDouble.timesPow2]
  · simp [changeColCost, addVar, setUserCostScale, initialUserScaledLp, emptyLp,
      XDouble.timesPow2, hc]
  · simp [setUserCostScale, hc]

/-- C14 (amended) at the model of two columns, its first column and the
exponent `c = -30` of the test. -/
theorem cost_stored_times_pow2_witness :
    (0 : Nat) < boundedLp.col_cost_.length ∧
    factorRepresentable (-30) = true ∧
    (setUserCostScale
        (changeColCost ⟨boundedLp, 0, 0⟩ 0 (XDouble.fin 7)) (-30)).2.lp.col_cost_.get? 0
      = some (XDouble.fin (7 * (2 : ℚ) ^ (-30 : Int))) ∧
    (changeColCost
        (setUserCostScale ⟨boundedLp, 0, 0⟩ (-30)).2 0 (XDouble.fin 5)).lp.col_cost_.get? 0
      = some (XDouble.fin (5 * (2 : ℚ) ^ (-30 : Int))) :=
  ⟨by decide, by decide,
    ((cost_stored_times_pow2 ⟨boundedLp, 0, 0⟩ 0 7 5 (-30) (by decide)).1
      (by decide)).2.1,
    ((cost_stored_times_pow2 ⟨boundedLp, 0, 0⟩ 0 7 5 (-30) (by decide)).1
      (by decide)).2.2.1⟩

/-! ## Reset and validation -/

/-- C15 (the code at the failing input).  On the example model of three
columns in column-wise format `aMatrixOk` returns true; after `clear` the
matrix object still has format `kColwise`, three columns and two rows while
the model has format `kNone` and zero counts, and `aMatrixOk` returns
false. -/
theorem clear_breaks_aMatrixOk :
    aMatrixOk exampleLp "check" = true ∧
    aMatrixOk (clear exampleLp) "check" = false ∧
    (clear exampleLp).a_matrix_.format = MatrixFormat.kColwise ∧
    (clear exampleLp).format_ = MatrixFormat.kNone ∧
    (clear exampleLp).a_matrix_.num_col = 3 ∧ (clear exampleLp).num_col_ = 0 ∧
    (clear exampleLp).a_matrix_.num_row = 2 ∧ (clear exampleLp).num_row_ = 0 := by
  decide

/-- C16 (counterexample).  `dimensionsOk` returns true on a model of three
columns and two rows with an active scale strategy whose scale has four column
factors and three row factors. -/
theorem dimensionsOk_accepts_longer_scale_arrays :
    dimensionsOk wideScaleLp "check" = some true ∧
    wideScaleLp.scale_.strategy ≠ kSimplexScaleStrategyOff ∧
    wideScaleLp.num_col_ = 3 ∧ vecSize wideScaleLp.scale_.col = 4 ∧
    wideScaleLp.num_row_ = 2 ∧ vecSize wideScaleLp.scale_.row = 3 := by
  decide

/-- C16 (amended).  When `dimensionsOk` returns true and the scale strategy is
not off, `scale_.num_col` and `scale_.num_row` are the declared counts and the
arrays `scale_.col` and `scale_.row` have at least `num_col_` and at least
`num_row_` entries. -/
theorem dimensionsOk_scale_dimensions {D : Type} (lp : HighsLp D) (message : String)
    (h : dimensionsOk lp message = some true)
    (hstrategy : lp.scale_.strategy ≠ kSimplexScaleStrategyOff) :
    lp.scale_.num_col = lp.num_col_ ∧ lp.scale_.num_row = lp.num_row_ ∧
    lp.num_col_ ≤ vecSize lp.scale_.col ∧ lp.num_row_ ≤ vecSize lp.scale_.row := by
  rw [dimensionsOk_eq_some_true_iff] at h
  obtain ⟨-, -, -, -, -, -, -, -, -, -, -, -, hscale⟩ := h
  obtain ⟨h1, h2, h3, h4⟩ := hscale hstrategy
  exact ⟨h1, h2, h4, h3⟩

/-- C16 (amended) at the model with the longer scale arrays. -/
theorem dimensionsOk_scale_dimensions_witness :
    dimensionsOk wideScaleLp "check" = some true ∧
    wideScaleLp.scale_.strategy ≠ kSimplexScaleStrategyOff ∧
    (wideScaleLp.scale_.num_col = wideScaleLp.num_col_ ∧
      wideScaleLp.scale_.num_row = wideScaleLp.num_row_ ∧
      wideScaleLp.num_col_ ≤ vecSize wideScaleLp.scale_.col ∧
      wideScaleLp.num_row_ ≤ vecSize wideScaleLp.scale_.row) :=
  ⟨by decide, by decide,
    dimensionsOk_scale_dimensions wideScaleLp "check" (by decide) (by decide)⟩

/-- C20 (counterexample).  On the empty model, which is the state `clear`
produces from a model of zero dimensions, `dimensionsOk` returns false: the
empty `a_start_` has fewer than `num_col_ + 1 = 1` entries. -/
theorem dimensionsOk_rejects_empty_model :
    clear (emptyLp : HighsLp Int) = emptyLp ∧
    (emptyLp : HighsLp Int).num_col_ = 0 ∧
    vecSize (emptyLp : HighsLp Int).a_start_ = 0 ∧
    dimensionsOk (emptyLp : HighsLp Int) "check" = some false ∧
    dimensionsOk (clear (emptyLp : HighsLp Int)) "check" = some false := by
  refine ⟨rfl, rfl, rfl, by decide, by decide⟩

/-- C20 (amended).  On a model of zero dimensions (zero counts, a matrix
object of zero dimensions, scale strategy off) `dimensionsOk` returns true
exactly when the legacy `a_start_` is not empty and the first entry of
`a_matrix_.start` exists and is `0`; it returns false when `a_start_` is
empty, as it is after `clear`. -/
theorem dimensionsOk_zero_dimension {D : Type} (lp : HighsLp D) (message : String)
    (hcol : lp.num_col_ = 0) (hrow : lp.num_row_ = 0)
    (hmcol : lp.a_matrix_.num_col = 0) (hmrow : lp.a_matrix_.num_row = 0)
    (hstrategy : lp.scale_.strategy = kSimplexScaleStrategyOff) :
    (dimensionsOk lp message = some true ↔
      1 ≤ vecSize lp.a_start_ ∧ vecAt lp.a_matrix_.start 0 = some 0) ∧
    (vecSize lp.a_start_ = 0 → dimensionsOk lp message = some false) := by
  have hiff : dimensionsOk lp message = some true ↔
      1 ≤ vecSize lp.a_start_ ∧ vecAt lp.a_matrix_.start 0 = some 0 := by
    rw [dimensionsOk_eq_some_true_iff]
    unfold DimensionsChecked
    have hsz : ∀ {α : Type} (l : List α), (0 : Int) ≤ vecSize l :=
      fun l => Int.natCast_nonneg _
    simp only [hcol, hrow, hmcol, hmrow, hstrategy, kSimplexScaleStrategyOff, le_refl,
      hsz, zero_add, lt_irrefl, false_implies, ne_eq, not_true_eq_false, true_and,
      and_true]
    constructor
    · rintro ⟨hlen, hfirst, nz, hnz, hnz0, -, -⟩
      have hpos : 0 < vecSize lp.a_matrix_.start :=
        vecSize_pos_of_vecAt (le_refl 0) hnz
      exact ⟨hlen, hfirst hpos⟩
    · rintro ⟨hlen, hfirst⟩
      exact ⟨hlen, fun _ => hfirst, 0, hfirst, le_refl 0, hsz _, hsz _⟩
  refine ⟨hiff, fun hempty => ?_⟩
  rcases hres : dimensionsOk lp message with _ | r
  · have hnone := (dimensionsOk_eq_none_iff lp message).mp hres
    rw [hcol, hempty] at hnone
    exact absurd hnone.2.2.1 (by decide)
  · cases r with
    | false => rfl
    | true =>
      have htrue := hiff.mp hres
      rw [hempty] at htrue
      exact absurd htrue.1 (by decide)

/-- C20 (amended) at the model of zero dimensions whose `a_start_` and
`a_matrix_.start` are `[0]`, which is valid, and at the empty model, which is
not. -/
theorem dimensionsOk_zero_dimension_witness :
    zeroDimensionLp.num_col_ = 0 ∧ zeroDimensionLp.num_row_ = 0 ∧
    zeroDimensionLp.a_start_ = [0] ∧ zeroDimensionLp.a_matrix_.start = [0] ∧
    dimensionsOk zeroDimensionLp "check" = some true ∧
    dimensionsOk (emptyLp : HighsLp Int) "check" = some false :=
  ⟨rfl, rfl, rfl, rfl,
    (dimensionsOk_zero_dimension zeroDimensionLp "check" rfl rfl rfl rfl rfl).1.mpr
      ⟨by decide, by decide⟩,
    (dimensionsOk_zero_dimension (emptyLp : HighsLp Int) "check" rfl rfl rfl rfl rfl).2
      rfl⟩

/-! ## Validators and structural equality -/

/-- The result of `dimensionsOk` is determined by the counts, the sizes of the
arrays it measures, the `start` array, format and counts of the matrix object,
and the strategy and dimensions of the scale. -/
theorem dimensionsOk_congr {D : Type} (A B : HighsLp D) (m m2 : String)
    (h1 : A.num_col_ = B.num_col_) (h2 : A.num_row_ = B.num_row_)
    (h3 : vecSize A.col_cost_ = vecSize B.col_cost_)
    (h4 : vecSize A.col_lower_ = vecSize B.col_lower_)
    (h5 : vecSize A.a_start_ = vecSize B.a_start_)
    (h6 : vecSize A.row_lower_ = vecSize B.row_lower_)
    (h7 : A.a_matrix_.num_col = B.a_matrix_.num_col)
    (h8 : A.a_matrix_.num_row = B.a_matrix_.num_row)
    (h9 : A.a_matrix_.start = B.a_matrix_.start)
    (h10 : A.a_matrix_.format = B.a_matrix_.format)
    (h11 : vecSize A.a_matrix_.index = vecSize B.a_matrix_.index)
    (h12 : vecSize A.a_matrix_.value = vecSize B.a_matrix_.value)
    (h13 : A.scale_.strategy = B.scale_.strategy)
    (h14 : A.scale_.num_col = B.scale_.num_col)
    (h15 : A.scale_.num_row = B.scale_.num_row)
    (h16 : vecSize A.scale_.row = vecSize B.scale_.row)
    (h17 : vecSize A.scale_.col = vecSize B.scale_.col) :
    dimensionsOk A m = dimensionsOk B m2 := by
  simp only [dimensionsOk, h1, h2, h3, h4, h5, h6, h7, h8, h9, h10, h11, h12, h13,
    h14, h15, h16, h17]

theorem beq_congr_of_partialEquiv {α : Type} [BEq α] [PartialEquivBEq α]
    {x x2 y y2 : α} (hx : (x == x2) = true) (hy : (y == y2) = true) :
    (x == y) = (x2 == y2) := by
  rcases h : (x == y) with _ | _
  · rcases h2 : (x2 == y2) with _ | _
    · rfl
    · have : (x == y) = true :=
        PartialEquivBEq.trans hx (PartialEquivBEq.trans h2 (PartialEquivBEq.symm hy))
      rw [h] at this
      exact this
  · exact (PartialEquivBEq.trans (PartialEquivBEq.symm hx)
      (PartialEquivBEq.trans h hy)).symm

theorem vectorEq_congr {α : Type} [BEq α] [PartialEquivBEq α] :
    ∀ (xs xs2 ys ys2 : List α), vectorEq xs xs2 = true → vectorEq ys ys2 = true →
      vectorEq xs ys = vectorEq xs2 ys2
  | [], [], [], [], _, _ => rfl
  | [], [], _ :: _, _ :: _, _, _ => rfl
  | _ :: _, _ :: _, [], [], _, _ => rfl
  | x :: xs, x2 :: xs2, y :: ys, y2 :: ys2, hx, hy => by
    simp only [vectorEq, Bool.and_eq_true] at hx hy
    simp only [vectorEq, beq_congr_of_partialEquiv hx.1 hy.1,
      vectorEq_congr xs xs2 ys ys2 hx.2 hy.2]
  | [], _ :: _, _, _, hx, _ => by simp [vectorEq] at hx
  | _ :: _, [], _, _, hx, _ => by simp [vectorEq] at hx
  | _, _, [], _ :: _, _, hy => by simp [vectorEq] at hy
  | _, _, _ :: _, [], _, hy => by simp [vectorEq] at hy

/-- C18.  The validators respect structural equality: when
`A.equalButForNames(B)` is true, `dimensionsOk`, `aMatrixOk` and
`dimensionsAndaMatrixOk` give the same result on `A` and on `B`.  The
comparison `==` of `double` is taken symmetric and transitive, as it is for
the machine type. -/
theorem validators_respect_equalButForNames {D : Type} [BEq D] [PartialEquivBEq D]
    (A B : HighsLp D) (message : String) (h : equalButForNames A B = true) :
    dimensionsOk A message = dimensionsOk B message ∧
    aMatrixOk A message = aMatrixOk B message ∧
    dimensionsAndaMatrixOk A message = dimensionsAndaMatrixOk B message := by
  obtain ⟨⟨hcol, hrow, -, -, hcost, -, hlower, -, hrlower, hstart, hindex, hvalue,
    hformat, hmformat, hmcol, hmrow, hmstart, hmindex, hmvalue, hstrategy, -,
    hscol, hsrow, -, hscalecol, hscalerow⟩, -⟩ := (equalButForNames_eq_true_iff A B).mp h
  have hdim : dimensionsOk A message = dimensionsOk B message :=
    dimensionsOk_congr A B message message hcol hrow hcost.vecSize_eq hlower.vecSize_eq
      (by rw [hstart]) hrlower.vecSize_eq hmcol hmrow hmstart hmformat
      (by rw [hmindex]) hmvalue.vecSize_eq hstrategy hscol hsrow
      hscalerow.vecSize_eq hscalecol.vecSize_eq
  have hval : vectorEq A.a_matrix_.value A.a_value_ =
      vectorEq B.a_matrix_.value B.a_value_ :=
    vectorEq_congr _ _ _ _ ((vectorEq_iff_sameSeq _ _).mpr hmvalue)
      ((vectorEq_iff_sameSeq _ _).mpr hvalue)
  have hmat : aMatrixOk A message = aMatrixOk B message := by
    simp only [aMatrixOk, hcol, hrow, hstart, hindex, hformat, hmformat, hmcol, hmrow,
      hmstart, hmindex, hval]
  refine ⟨hdim, hmat, ?_⟩
  simp only [dimensionsAndaMatrixOk, hdim, hmat]

/-- C18 at the example model and the same model under other column names. -/
theorem validators_respect_equalButForNames_witness :
    equalButForNames exampleLp renamedColumnsLp = true ∧
    dimensionsOk exampleLp "check" = dimensionsOk renamedColumnsLp "check" ∧
    aMatrixOk exampleLp "check" = aMatrixOk renamedColumnsLp "check" ∧
    dimensionsAndaMatrixOk exampleLp "check" =
      dimensionsAndaMatrixOk renamedColumnsLp "check" :=
  ⟨by decide,
    validators_respect_equalButForNames exampleLp renamedColumnsLp "check" (by decide)⟩

/-- C19.  `equalButForNames` is insensitive to `integrality_`, `col_names_` and
`row_names_`: replacing them in either model by any other values leaves the
result unchanged.  The example model and the same model with an integer
column compare equal, although only the second is a MIP. -/
theorem equalButForNames_ignores_integrality_and_names :
    (∀ (D : Type) [BEq D] (A B : HighsLp D) (intA intB : List HighsVarType)
        (colA rowA colB rowB : List String),
      equalButForNames
          { A with integrality_ := intA, col_names_ := colA, row_names_ := rowA }
          { B with integrality_ := intB, col_names_ := colB, row_names_ := rowB } =
        equalButForNames A B) ∧
    equalButForNames exampleLp mixedIntegerLp = true ∧
    isMip exampleLp = some false ∧ isMip mixedIntegerLp = some true := by
  refine ⟨fun D _ A B intA intB colA rowA colB rowB => rfl, ?_, ?_, ?_⟩ <;> decide

end HiGHS
